import Mathlib

/-!
Verification of the mail-forwarding DNS validation service.

This file shallowly embeds the JavaScript source of the service in Lean 4 and
proves (or refutes) the frozen specification claims about it.  Strings are
modelled at code-point granularity (JS UTF-16 subtleties such as split
surrogate pairs do not affect any claim here); JavaScript toLowerCase and
toUpperCase are modelled on the ASCII range, which covers every value the
claims quantify over.
-/

namespace MailDns

/-! ## Character predicates (from src/app/util/sanitize.js and JS regexes) -/

/-- Control characters stripped by stripControlChars: U+0000..U+001F and U+007F. -/
def isCtrl (c : Char) : Bool :=
  c.val ≤ 0x1F || c.val == 0x7F

/-- Characters of the JS regex class [\r\n\t]. -/
def isCrlfTab (c : Char) : Bool :=
  c == '\r' || c == '\n' || c == '\t'

/-- Characters matched by the JS regex class \s (WhiteSpace and LineTerminator). -/
def isJsWs (c : Char) : Bool :=
  c == ' ' || c == '\t' || c == '\n' || c == '\r' ||
  c == '\x0b' || c == '\x0c' ||
  c.val == 0xa0 || c.val == 0x1680 ||
  (0x2000 ≤ c.val && c.val ≤ 0x200a) ||
  c.val == 0x2028 || c.val == 0x2029 || c.val == 0x202f ||
  c.val == 0x205f || c.val == 0x3000 || c.val == 0xfeff

/-- JS String.replace with a global regex of the form [class]+ and a single-space
replacement: every maximal run of characters satisfying p becomes one space.
The flag records whether we are inside a run that has already emitted its space. -/
def replaceRunsAux (p : Char → Bool) : Bool → List Char → List Char
  | _, [] => []
  | inRun, c :: cs =>
    if p c then
      if inRun then replaceRunsAux p true cs
      else ' ' :: replaceRunsAux p true cs
    else c :: replaceRunsAux p false cs

def replaceRuns (p : Char → Bool) (l : List Char) : List Char :=
  replaceRunsAux p false l

/-- State for the \s{2,} collapse automaton: outside a whitespace run, inside a
run that so far has exactly one character w, or inside a run of length at least
two. -/
inductive WsRun where
  | idle : WsRun
  | one : Char → WsRun
  | many : WsRun

/-- JS String.replace(/\s{2,}/g, ' '): a maximal whitespace run of length one is
kept verbatim, a run of length at least two becomes a single space. -/
def collapseWs2Aux : WsRun → List Char → List Char
  | .idle, [] => []
  | .one w, [] => [w]
  | .many, [] => [' ']
  | st, c :: cs =>
    if isJsWs c then
      match st with
      | .idle => collapseWs2Aux (.one c) cs
      | .one _ => collapseWs2Aux .many cs
      | .many => collapseWs2Aux .many cs
    else
      match st with
      | .idle => c :: collapseWs2Aux .idle cs
      | .one w => w :: c :: collapseWs2Aux .idle cs
      | .many => ' ' :: c :: collapseWs2Aux .idle cs

def collapseWsRuns (l : List Char) : List Char :=
  collapseWs2Aux .idle l

/-- JS String.prototype.trim: drop WhiteSpace/LineTerminator from both ends. -/
def trimChars (l : List Char) : List Char :=
  ((l.dropWhile isJsWs).reverse.dropWhile isJsWs).reverse

/-- stripControlChars from src/app/util/sanitize.js. -/
def stripControlChars (l : List Char) : List Char :=
  l.filter (fun c => !isCtrl c)

/-! ## Sanitizers (src/app/util/sanitize.js) -/

/-- Normalisation pipeline of sanitizeForLogAndEmail before truncation:
replace [\r\n\t]+ by a space, strip control characters, collapse \s{2,} to a
single space, trim. -/
def sanitizeCore (l : List Char) : List Char :=
  trimChars (collapseWsRuns (stripControlChars (replaceRuns isCrlfTab l)))

/-- sanitizeForLogAndEmail(input, maxLen = 500): normalise, then truncate to
maxLen characters with a literal "..." appended when over the limit. -/
def sanitizeForLogAndEmail (l : List Char) (maxLen : Nat) : List Char :=
  if maxLen < (sanitizeCore l).length then (sanitizeCore l).take maxLen ++ ['.', '.', '.']
  else sanitizeCore l

/-- The CR/LF deletion plus control stripping of sanitizeHeaderValue. -/
def headerCore (l : List Char) : List Char :=
  stripControlChars (l.filter (fun c => !(c == '\r' || c == '\n')))

/-- sanitizeHeaderValue(input, maxLen = 200): delete CR and LF, strip control
characters, truncate without an ellipsis. -/
def sanitizeHeaderValue (l : List Char) (maxLen : Nat) : List Char :=
  if maxLen < (headerCore l).length then (headerCore l).take maxLen else headerCore l

structure SanitizedValue where
  value : List Char
  truncated : Bool
deriving DecidableEq, Repr

/-- sanitizeDnsText(input, maxLen): strip control characters; truncate only when
maxLen is truthy (nonzero) and exceeded. -/
def sanitizeDnsText (l : List Char) (maxLen : Nat) : SanitizedValue :=
  if maxLen ≠ 0 ∧ maxLen < (stripControlChars l).length then
    ⟨(stripControlChars l).take maxLen, true⟩
  else ⟨stripControlChars l, false⟩

/-- The control stripping plus whitespace removal of sanitizeDnsHost. -/
def hostCore (l : List Char) : List Char :=
  (stripControlChars l).filter (fun c => !isJsWs c)

/-- sanitizeDnsHost(input, maxLen): strip control characters, remove all
whitespace, truncate only when maxLen is truthy and exceeded. -/
def sanitizeDnsHost (l : List Char) (maxLen : Nat) : SanitizedValue :=
  if maxLen ≠ 0 ∧ maxLen < (hostCore l).length then ⟨(hostCore l).take maxLen, true⟩
  else ⟨hostCore l, false⟩

/-- capArray(values, max) from src/app/util/sanitize.js, for list inputs. -/
def capArray (values : List α) (max : Nat) : List α × Nat × Bool :=
  let total := values.length
  let truncated := decide (max < total)
  (if truncated then values.take max else values, total, truncated)

/-- byteLength(str): UTF-8 byte length, as Buffer.byteLength(str, 'utf8'). -/
def byteLength (l : List Char) : Nat :=
  (l.map Char.utf8Size).sum

example : sanitizeForLogAndEmail "  a\r\n b\t\tc  ".data 500 = "a b c".data := by decide

example : sanitizeForLogAndEmail "abcdef".data 3 = "abc...".data := by decide

example : (sanitizeDnsHost " ho st\x01 ".data 253).value = "host".data := by decide

/-! ## JSON values (the dynamically-typed payloads of the service)

JVal models the JSON-serialisable JavaScript values the service passes around:
persisted check results, the per-requirement missing entries, and snapshots.
An absent object property (JS undefined) is modelled by omission of the key. -/

inductive JVal where
  | null : JVal
  | bool : Bool → JVal
  | num : Int → JVal
  | str : String → JVal
  | arr : List JVal → JVal
  | obj : List (String × JVal) → JVal

/-- JS property read x.k: some value when the key is present, none for undefined
(including reads on non-objects, which the service only performs on values it
has type-guarded). -/
def getField : JVal → String → Option JVal
  | .obj kvs, k => (kvs.find? (fun p => p.1 == k)).map (fun p => p.2)
  | _, _ => none

/-- Object update as produced by spread-plus-override: replace the value in
place when the key exists, append otherwise (JS insertion-order semantics). -/
def setField : List (String × JVal) → String → JVal → List (String × JVal)
  | [], k, v => [(k, v)]
  | (k', v') :: kvs, k, v =>
    if k' == k then (k, v) :: kvs else (k', v') :: setField kvs k v

/-- JS truthiness of a JVal. -/
def jsTruthy : JVal → Bool
  | .null => false
  | .bool b => b
  | .num n => n != 0
  | .str s => s != ""
  | .arr _ => true
  | .obj _ => true

/-- JS Array.isArray. -/
def isArrayV : JVal → Bool
  | .arr _ => true
  | _ => false

/-- JS typeof x === 'object' (true for objects, arrays and null). -/
def isObjectType : JVal → Bool
  | .obj _ => true
  | .arr _ => true
  | .null => true
  | _ => false

/-- The fields of an object value (empty for non-objects). -/
def fieldsOf : JVal → List (String × JVal)
  | .obj kvs => kvs
  | _ => []

/-! ### JSON.stringify -/

def hexDigit (n : UInt32) : Char :=
  if n == 0 then '0' else if n == 1 then '1' else if n == 2 then '2'
  else if n == 3 then '3' else if n == 4 then '4' else if n == 5 then '5'
  else if n == 6 then '6' else if n == 7 then '7' else if n == 8 then '8'
  else if n == 9 then '9' else if n == 10 then 'a' else if n == 11 then 'b'
  else if n == 12 then 'c' else if n == 13 then 'd' else if n == 14 then 'e'
  else 'f'

/-- How JSON.stringify escapes one character inside a string literal. -/
def escapeChar (c : Char) : List Char :=
  if c == '"' then ['\\', '"']
  else if c == '\\' then ['\\', '\\']
  else if c == '\n' then ['\\', 'n']
  else if c == '\r' then ['\\', 'r']
  else if c == '\t' then ['\\', 't']
  else if c == '\x08' then ['\\', 'b']
  else if c == '\x0c' then ['\\', 'f']
  else if c.val < 0x20 then ['\\', 'u', '0', '0', hexDigit (c.val / 16), hexDigit (c.val % 16)]
  else [c]

def quoteStr (s : String) : List Char :=
  '"' :: (s.data.map escapeChar).flatten ++ ['"']

mutual

/-- JSON.stringify on JVal, producing the serialised character sequence. -/
def stringify : JVal → List Char
  | .null => "null".data
  | .bool true => "true".data
  | .bool false => "false".data
  | .num n => (toString n).data
  | .str s => quoteStr s
  | .arr xs => '[' :: stringifyElems xs ++ [']']
  | .obj kvs => '\x7b' :: stringifyMembers kvs ++ ['\x7d']

def stringifyElems : List JVal → List Char
  | [] => []
  | [x] => stringify x
  | x :: y :: xs => stringify x ++ ',' :: stringifyElems (y :: xs)

def stringifyMembers : List (String × JVal) → List Char
  | [] => []
  | [(k, v)] => quoteStr k ++ ':' :: stringify v
  | (k, v) :: m :: kvs => quoteStr k ++ ':' :: stringify v ++ ',' :: stringifyMembers (m :: kvs)

end

example : stringify (.obj [("a", .num 1), ("b", .str "x\"y")]) =
    "\x7b\"a\":1,\"b\":\"x\\\"y\"\x7d".data := by decide

/-! ## Result payload size capping (src/unnamed/part_003: buildResultPayload) -/

/-- snapshot.cname_count and friends are read with a JS logical-or fallback to
the list length: a falsy count field falls back to the length. -/
def countOr (o : Option JVal) (len : Nat) : JVal :=
  match o with
  | some v => if jsTruthy v then v else .num len
  | none => .num len

/-- Helper appending the counts entry for one snapshot list field when the
field holds an array, as summarizeSnapshot does per key. -/
def snapshotCountField (snapshot : JVal) (k kCount : String) : List (String × JVal) :=
  match getField snapshot k with
  | some (.arr xs) => [(k, countOr (getField snapshot kCount) xs.length)]
  | _ => []

/-- summarizeSnapshot: non-objects pass through; objects become a counts-only
summary over the cname, mx, txt_apex and txt_dmarc lists. -/
def summarizeSnapshot (snapshot : JVal) : JVal :=
  if !(jsTruthy snapshot) || !(isObjectType snapshot) then snapshot
  else
    .obj [("truncated", .bool true),
          ("counts", .obj (snapshotCountField snapshot "cname" "cname_count" ++
                           snapshotCountField snapshot "mx" "mx_count" ++
                           snapshotCountField snapshot "txt_apex" "txt_apex_count" ++
                           snapshotCountField snapshot "txt_dmarc" "txt_dmarc_count"))]

/-- Object fields arising from possibly-undefined JS values: an undefined value
yields no key in the serialised output. -/
def objField (k : String) (o : Option JVal) : List (String × JVal) :=
  match o with
  | some v => [(k, v)]
  | none => []

/-- summarizeMissing applied to one entry: keep key, expected and ok; keep at
most the first 3 found items; record whether found was cut. -/
def summarizeMissingItem (item : JVal) : JVal :=
  if !(jsTruthy item) || !(isObjectType item) then item
  else
    let foundNew : JVal :=
      match getField item "found" with
      | some (.arr xs) => .arr (xs.take 3)
      | _ => .arr []
    let foundTrunc : Bool :=
      match getField item "found" with
      | some (.arr xs) => decide (3 < xs.length)
      | _ => false
    .obj (objField "key" (getField item "key") ++
          objField "expected" (getField item "expected") ++
          objField "ok" (getField item "ok") ++
          [("found", foundNew), ("found_truncated", .bool foundTrunc)])

def summarizeMissing (missing : JVal) : JVal :=
  match missing with
  | .arr xs => .arr (xs.map summarizeMissingItem)
  | v => v

/-- The first summarisation stage of ensureResultSize: spread payload, force
truncated to true, summarise the snapshot and the missing list. -/
def trimmedOf (payload : JVal) : JVal :=
  let kvs := setField (fieldsOf payload) "truncated" (.bool true)
  let kvs :=
    match getField payload "dns_snapshot" with
    | some s => setField kvs "dns_snapshot" (summarizeSnapshot s)
    | none => kvs
  let kvs :=
    match getField payload "missing" with
    | some m => setField kvs "missing" (summarizeMissing m)
    | none => kvs
  .obj kvs

/-- The minimal stage: key, expected and ok survive; found is emptied. -/
def minimalMissingItem (item : JVal) : JVal :=
  .obj (objField "key" (getField item "key") ++
        objField "expected" (getField item "expected") ++
        objField "ok" (getField item "ok") ++
        [("found", .arr []), ("found_truncated", .bool true)])

/-- The second summarisation stage of ensureResultSize: replace the snapshot by
a note and empty every missing entry's found list. -/
def minimalOf (trimmed : JVal) : JVal :=
  let kvs := setField (fieldsOf trimmed) "dns_snapshot"
    (.obj [("truncated", .bool true), ("note", .str "snapshot omitted")])
  let m : JVal :=
    match getField trimmed "missing" with
    | some (.arr xs) => .arr (xs.map minimalMissingItem)
    | _ => .arr []
  .obj (setField kvs "missing" m)

/-- ensureResultSize(payload): serialise; if over budget summarise once; if
still over budget produce the minimal form, which is returned without a
further size check. -/
def ensureResultSize (maxBytes : Nat) (payload : JVal) : JVal × List Char :=
  if byteLength (stringify payload) ≤ maxBytes then (payload, stringify payload)
  else if byteLength (stringify (trimmedOf payload)) ≤ maxBytes then
    (trimmedOf payload, stringify (trimmedOf payload))
  else
    (minimalOf (trimmedOf payload), stringify (minimalOf (trimmedOf payload)))

/-- buildResultPayload(check, checkedAt, nextCheckAt): assemble the persisted
payload object and apply the byte budget. -/
def buildResultPayload (maxBytes : Nat) (snapshot missing okField : JVal)
    (checkedAt nextCheckAt : String) : JVal × List Char :=
  ensureResultSize maxBytes
    (.obj [("dns_snapshot", snapshot), ("missing", missing), ("ok", okField),
           ("checked_at", .str checkedAt), ("next_check_at", .str nextCheckAt)])

/-! ## Configuration (src/app/config.js, the fields the claims depend on) -/

structure Config where
  UI_CNAME_EXPECTED : String
  UI_CNAME_AUTHORIZED_IPS : List String
  UI_CNAME_MAX_CHAIN_DEPTH : Nat
  EMAIL_MX_EXPECTED_HOST : String
  EMAIL_MX_EXPECTED_PRIORITY : Int
  EMAIL_SPF_EXPECTED : String
  EMAIL_DMARC_EXPECTED : String
  EMAIL_DKIM_SELECTOR : String
  EMAIL_DKIM_CNAME_EXPECTED : String
  DNS_MAX_RECORDS : Nat
  DNS_MAX_TXT_RECORDS : Nat
  DNS_MAX_TXT_LENGTH : Nat
  DNS_MAX_HOST_LENGTH : Nat

/-! ## Read-only query route (src/app/routes/checkdns.js) -/

/-- JS toUpperCase on the ASCII range. -/
def jsToUpper (s : String) : String :=
  ⟨s.data.map Char.toUpper⟩

/-- The normalisedKey computation: typeof key === 'string' ? key.toUpperCase()
: '' applied to a possibly-undefined property value. -/
def keyUpper : Option JVal → String
  | some (.str s) => jsToUpper s
  | _ => ""

def missingNameForKey (key : Option JVal) (target : String) : String :=
  if keyUpper key == "DMARC" then "_dmarc." ++ target else target

def missingTypeForKey (key : Option JVal) : String :=
  let k := keyUpper key
  if k == "SPF" || k == "DMARC" then "TXT"
  else if k == "MX" then "MX"
  else if k == "CNAME" then "CNAME"
  else if k == "" then "UNKNOWN"
  else k

/-- withMissingNames on one entry: non-objects pass through; otherwise name is
defaulted from the key when falsy and type is recomputed from the key. -/
def withMissingNamesItem (target : String) (item : JVal) : JVal :=
  if !(jsTruthy item) || !(isObjectType item) then item
  else
    let name : JVal :=
      match getField item "name" with
      | some v => if jsTruthy v then v
                  else .str (missingNameForKey (getField item "key") target)
      | none => .str (missingNameForKey (getField item "key") target)
    .obj (setField
            (setField (fieldsOf item) "name" name)
            "type" (.str (missingTypeForKey (getField item "key"))))

def withMissingNames (missing : JVal) (target : String) : JVal :=
  match missing with
  | .arr xs => .arr (xs.map (withMissingNamesItem target))
  | v => v

/-- fallbackMissing(target): the synthetic four-entry verdict list built from
the configured expected values. -/
def fallbackMissing (cfg : Config) (target : String) : List JVal :=
  [ .obj [("key", .str "CNAME"), ("type", .str "CNAME"), ("name", .str target),
          ("expected", .str cfg.UI_CNAME_EXPECTED), ("found", .arr []), ("ok", .bool false)],
    .obj [("key", .str "MX"), ("type", .str "MX"), ("name", .str target),
          ("expected", .obj [("host", .str cfg.EMAIL_MX_EXPECTED_HOST),
                             ("priority", .num cfg.EMAIL_MX_EXPECTED_PRIORITY)]),
          ("found", .arr []), ("ok", .bool false)],
    .obj [("key", .str "SPF"), ("type", .str "TXT"), ("name", .str target),
          ("expected", .str cfg.EMAIL_SPF_EXPECTED), ("found", .arr []), ("ok", .bool false)],
    .obj [("key", .str "DMARC"), ("type", .str "TXT"), ("name", .str ("_dmarc." ++ target)),
          ("expected", .str cfg.EMAIL_DMARC_EXPECTED), ("found", .arr []), ("ok", .bool false)] ]

/-- Insertion-ordered string-keyed map lookup (JS Map.get). -/
def mapGet (m : List (String × JVal)) (k : String) : Option JVal :=
  (m.find? (fun p => p.1 == k)).map (fun p => p.2)

/-- One Map.set step of the foundByKey fold: keep object entries whose key
property is a string with a nonempty uppercased form; a later entry for the
same key overwrites the earlier one. -/
def foundStep (m : List (String × JVal)) (item : JVal) : List (String × JVal) :=
  if jsTruthy item && isObjectType item then
    match getField item "key" with
    | some (.str s) => if jsToUpper s == "" then m else setField m (jsToUpper s) item
    | _ => m
  else m

/-- The foundByKey map of ensureUnifiedMissing. -/
def foundByKeyOf (base : JVal) : List (String × JVal) :=
  match base with
  | .arr xs => xs.foldl foundStep []
  | _ => []

def unifiedKeys : List String := ["CNAME", "MX", "SPF", "DMARC"]

/-- The fallbackByKey map of ensureUnifiedMissing. -/
def fallbackByKeyOf (cfg : Config) (target : String) : List (String × JVal) :=
  (fallbackMissing cfg target).map (fun item => (keyUpper (getField item "key"), item))

/-- One component of the unified list: foundByKey.get(key) with JS logical-or
fallback to fallbackByKey.get(key) (always present for the four keys). -/
def unifiedPick (cfg : Config) (base : JVal) (target : String) (k : String) : JVal :=
  match mapGet (foundByKeyOf base) k with
  | some item =>
    if jsTruthy item then item else (mapGet (fallbackByKeyOf cfg target) k).getD .null
  | none => (mapGet (fallbackByKeyOf cfg target) k).getD .null

/-- ensureUnifiedMissing(missing, target): re-annotate entries, then project
onto the four canonical keys in order, with the fallback entry used for any
key the payload lacks. -/
def ensureUnifiedMissing (cfg : Config) (missing : JVal) (target : String) : List JVal :=
  unifiedKeys.map (unifiedPick cfg (withMissingNames missing target) target)

/-- The row data getMissingForRow reads. -/
structure RowQ where
  last_check_result_json : Option String

/-- The persisted-JSON path of getMissingForRow: a truthy
last_check_result_json that parses to a truthy object with a truthy missing
property yields the unified list; every other outcome falls through. -/
def rowMissingFromJson (cfg : Config) (parse : String → Option JVal) (target : String) :
    Option String → Option (List JVal)
  | none => none
  | some s =>
    if s == "" then none
    else
      match parse s with
      | some parsed =>
        if jsTruthy parsed then
          match getField parsed "missing" with
          | some m =>
            if jsTruthy m then some (ensureUnifiedMissing cfg m target) else none
          | none => none
        else none
      | none => none

/-- The fall-through path of getMissingForRow: a throttled debounce or a
thrown live check yields the fallback list, a successful live check the
unified list over its missing property. -/
def rowMissingDebounced (cfg : Config) (canRun : Bool) (liveCheck : Except Unit JVal)
    (target : String) : List JVal :=
  if !canRun then fallbackMissing cfg target
  else
    match liveCheck with
    | .ok checkMissing => ensureUnifiedMissing cfg checkMissing target
    | .error _ => fallbackMissing cfg target

/-- getMissingForRow for the EMAIL row of GET /api/checkdns/:target.
The JSON.parse outcome, the read-only-debounce verdict and the live
checkEmail outcome are inputs: parse models JSON.parse (none = throw),
canRun the canRunReadOnlyCheck result, and liveCheck the missing property of
a live checkEmail call (error = throw). -/
def getMissingForRow (cfg : Config) (row : Option RowQ) (parse : String → Option JVal)
    (canRun : Bool) (liveCheck : Except Unit JVal) (target : String) :
    Option (List JVal) :=
  match row with
  | none => none
  | some r =>
    match rowMissingFromJson cfg parse target r.last_check_result_json with
    | some result => some result
    | none => some (rowMissingDebounced cfg canRun liveCheck target)

/-! ## DNS checker (src/app/dns/checker.js)

DNS resolution is an oracle: a Resolver gives, per host, the record lists the
resolve*Safe helpers observe on executions where no lookup throws (NXDOMAIN,
NODATA and NOTFOUND already appear as empty lists, matching the error policy
of the source; a thrown timeout aborts the whole check and is handled by the
callers, which the claims cover through their error paths). -/

def jsToLower (s : String) : String :=
  ⟨s.data.map Char.toLower⟩

def stripTrailingDot (l : List Char) : List Char :=
  match l.getLast? with
  | some '.' => l.dropLast
  | _ => l

/-- normalizeHost: lowercase, strip one trailing dot; falsy input passes. -/
def normalizeHost (s : String) : String :=
  if s == "" then s else ⟨stripTrailingDot (jsToLower s).data⟩

/-- normalizeIp: trim and lowercase; falsy input passes. -/
def normalizeIp (s : String) : String :=
  if s == "" then s else jsToLower ⟨trimChars s.data⟩

/-- normalizeSpfRecord: trim, collapse whitespace runs to single spaces,
lowercase. -/
def normalizeSpfRecord (s : String) : String :=
  jsToLower ⟨replaceRuns isJsWs (trimChars s.data)⟩

/-- normalizeDmarcRecord: identical pipeline to normalizeSpfRecord. -/
def normalizeDmarcRecord (s : String) : String :=
  jsToLower ⟨replaceRuns isJsWs (trimChars s.data)⟩

def isExactSpfMatch (records : List String) (expectedSpf : String) : Bool :=
  let expected := normalizeSpfRecord expectedSpf
  if expected == "" then false
  else records.any (fun record => normalizeSpfRecord record == expected)

def isExactDmarcMatch (records : List String) (expectedDmarc : String) : Bool :=
  let expected := normalizeDmarcRecord expectedDmarc
  if expected == "" then false
  else records.any (fun record => normalizeDmarcRecord record == expected)

structure Resolver where
  cname : String → List String
  a4 : String → List String
  a6 : String → List String
  mx : String → List (String × Int)
  txt : String → List (List String)

def resolveCnameSafe (r : Resolver) (target : String) : List String :=
  (r.cname target).map normalizeHost

def resolveMxSafe (r : Resolver) (target : String) : List (String × Int) :=
  (r.mx target).map (fun rec => (normalizeHost rec.1, rec.2))

def resolveTxtSafe (r : Resolver) (target : String) : List String :=
  (r.txt target).map (fun chunks => String.join chunks)

def resolveA4Safe (r : Resolver) (target : String) : List String :=
  (r.a4 target).map normalizeIp

def resolveA6Safe (r : Resolver) (target : String) : List String :=
  (r.a6 target).map normalizeIp

/-! ### CNAME chain walk -/

structure ChainResult where
  ok : Bool
  chain : List String
  resolvedIps : List String
  reason : String
  reachedMaxDepth : Bool
  loopDetected : Bool
deriving DecidableEq, Repr

structure ChainAcc where
  visited : List String
  chain : List String
  resolvedIps : List String
  sawCname : Bool
  loopDetected : Bool
deriving DecidableEq, Repr

/-- The per-host ip loop: add each resolved ip to the accumulator set in
order, stopping (true) as soon as an authorized ip is hit. -/
def addIps (auth : List String) (resolved : List String) :
    List String → List String × Bool
  | [] => (resolved, false)
  | ip :: rest =>
    let resolved' := if ip ∈ resolved then resolved else resolved ++ [ip]
    if ip ∈ auth then (resolved', true) else addIps auth resolved' rest

/-- The body of the while loop over one frontier: process each current host in
order; a host already visited only sets loopDetected; a host with CNAME
records extends the next frontier and sets sawCname; otherwise its A and AAAA
records are accumulated and an authorized hit returns the success result. -/
def chainProcessHosts (r : Resolver) (auth : List String) :
    List String → ChainAcc → List String → ChainResult ⊕ (ChainAcc × List String)
  | [], acc, nextHosts => .inr (acc, nextHosts)
  | rawHost :: rest, acc, nextHosts =>
    let host := normalizeHost rawHost
    if host == "" then chainProcessHosts r auth rest acc nextHosts
    else if host ∈ acc.visited then
      chainProcessHosts r auth rest { acc with loopDetected := true } nextHosts
    else
      let acc' := { acc with visited := acc.visited ++ [host], chain := acc.chain ++ [host] }
      let cnameRecords := resolveCnameSafe r host
      if !cnameRecords.isEmpty then
        let newNexts := (cnameRecords.map normalizeHost).filter (fun h => !(h == ""))
        chainProcessHosts r auth rest { acc' with sawCname := true } (nextHosts ++ newNexts)
      else
        let ips := ((resolveA4Safe r host ++ resolveA6Safe r host).map normalizeIp).filter
          (fun ip => !(ip == ""))
        match addIps auth acc'.resolvedIps ips with
        | (resolved', true) =>
          .inl { ok := true, chain := acc'.chain, resolvedIps := resolved',
                 reason := if acc'.sawCname then "authorized_ip_match" else "direct_ip_match",
                 reachedMaxDepth := false, loopDetected := acc'.loopDetected }
        | (resolved', false) =>
          chainProcessHosts r auth rest { acc' with resolvedIps := resolved' } nextHosts

/-- The post-loop failure result. fuelExhausted corresponds to depth having
reached maxDepth (the remaining-fuel counter hitting zero). -/
def chainResultOf (currentHosts : List String) (fuelExhausted : Bool) (acc : ChainAcc) :
    ChainResult :=
  let reached := !currentHosts.isEmpty && fuelExhausted
  { ok := false, chain := acc.chain, resolvedIps := acc.resolvedIps,
    reason := if reached then "max_chain_depth_reached"
              else if acc.loopDetected then "cname_loop_detected"
              else "authorized_ip_not_found",
    reachedMaxDepth := reached, loopDetected := acc.loopDetected }

/-- Array.from(new Set(nextHosts)): insertion-ordered dedupe. -/
def dedupKeepFirst (l : List String) : List String :=
  l.foldl (fun acc h => if h ∈ acc then acc else acc ++ [h]) []

/-- The while loop, with fuel = maxDepth - depth. The second component is a
ghost counter of frontier expansions (loop-body entries), used only to state
the resource bound. -/
def chainLoop (r : Resolver) (auth : List String) :
    Nat → List String → ChainAcc → Nat → ChainResult × Nat
  | 0, currentHosts, acc, count => (chainResultOf currentHosts true acc, count)
  | fuel+1, currentHosts, acc, count =>
    if currentHosts.isEmpty then (chainResultOf currentHosts false acc, count)
    else
      match chainProcessHosts r auth currentHosts acc [] with
      | .inl success => (success, count + 1)
      | .inr (acc', nextHosts) =>
        if nextHosts.isEmpty then (chainResultOf currentHosts false acc', count + 1)
        else chainLoop r auth fuel (dedupKeepFirst nextHosts) acc' (count + 1)

/-- resolveCnameChainToAuthorizedIp(startHost, authorizedIps, maxDepth); the
first component is the function's result, the second the ghost expansion
count. -/
def resolveCnameChainToAuthorizedIp (r : Resolver) (startHost : String)
    (authorizedIps : List String) (maxDepth : Nat) : ChainResult × Nat :=
  let auth := (authorizedIps.map normalizeIp).filter (fun s => !(s == ""))
  let start := normalizeHost startHost
  chainLoop r auth maxDepth (if start == "" then [] else [start]) ⟨[], [], [], false, false⟩ 0

/-! ### Record capping and the checkEmail verdicts

The SHA-256 forensic hash attached on truncation feeds only snapshot fields,
which no claim quantifies over; the snapshot and hash are therefore not
modelled and checkEmail is embedded as its ok verdict plus its missing list. -/

structure CapMeta where
  values : List JVal
  total : Nat
  truncated : Bool
  valueTruncated : Bool

def capAndSanitizeHosts (cfg : Config) (rawHosts : List String) : CapMeta :=
  let normalized := rawHosts.map normalizeHost
  let capped := capArray normalized cfg.DNS_MAX_RECORDS
  let sanitized := capped.1.map (fun host => sanitizeDnsHost host.data cfg.DNS_MAX_HOST_LENGTH)
  { values := sanitized.map (fun svr => .str ⟨svr.value⟩),
    total := capped.2.1, truncated := capped.2.2,
    valueTruncated := sanitized.any (fun svr => svr.truncated) }

def capAndSanitizeMx (cfg : Config) (rawMx : List (String × Int)) : CapMeta :=
  let capped := capArray rawMx cfg.DNS_MAX_RECORDS
  let sanitized := capped.1.map
    (fun rec => (sanitizeDnsHost rec.1.data cfg.DNS_MAX_HOST_LENGTH, rec.2))
  { values := sanitized.map
      (fun p => .obj [("exchange", .str ⟨p.1.value⟩), ("priority", .num p.2)]),
    total := capped.2.1, truncated := capped.2.2,
    valueTruncated := sanitized.any (fun p => p.1.truncated) }

def capAndSanitizeTxt (cfg : Config) (rawTxt : List String) : CapMeta :=
  let capped := capArray rawTxt cfg.DNS_MAX_TXT_RECORDS
  let sanitized := capped.1.map (fun txt => sanitizeDnsText txt.data cfg.DNS_MAX_TXT_LENGTH)
  { values := sanitized.map (fun svr => .str ⟨svr.value⟩),
    total := capped.2.1, truncated := capped.2.2,
    valueTruncated := sanitized.any (fun svr => svr.truncated) }

structure CheckOutcome where
  ok : Bool
  missing : List JVal

/-- checkEmail(target): the five resolutions, the five verdicts and the
missing list, for a given resolver oracle and configuration. -/
def checkEmail (cfg : Config) (r : Resolver) (target : String) : CheckOutcome :=
  let apexName := normalizeHost target
  let dkimSelector := normalizeHost cfg.EMAIL_DKIM_SELECTOR
  let dkimName := dkimSelector ++ "._domainkey." ++ apexName
  let dmarcName := "_dmarc." ++ apexName
  let expectedCname := normalizeHost cfg.UI_CNAME_EXPECTED
  let expectedDkimCname := normalizeHost cfg.EMAIL_DKIM_CNAME_EXPECTED
  let authorizedCnameIps := (cfg.UI_CNAME_AUTHORIZED_IPS.map normalizeIp).filter
    (fun s => !(s == ""))
  let expectedMxHost := normalizeHost cfg.EMAIL_MX_EXPECTED_HOST
  let cnameRecords := resolveCnameSafe r apexName
  let dkimCnameRecords := resolveCnameSafe r dkimName
  let mxRecords := resolveMxSafe r apexName
  let txtApex := resolveTxtSafe r apexName
  let txtDmarc := resolveTxtSafe r dmarcName
  let directCnameOk := cnameRecords.any (fun record => normalizeHost record == expectedCname)
  let cnameChainResolution : Option ChainResult :=
    if !authorizedCnameIps.isEmpty then
      some (resolveCnameChainToAuthorizedIp r apexName authorizedCnameIps
        cfg.UI_CNAME_MAX_CHAIN_DEPTH).1
    else none
  let cnameOk := match cnameChainResolution with
    | some c => c.ok
    | none => directCnameOk
  let mxOk := mxRecords.any
    (fun rec => rec.1 == expectedMxHost && rec.2 == cfg.EMAIL_MX_EXPECTED_PRIORITY)
  let spfOk := isExactSpfMatch txtApex cfg.EMAIL_SPF_EXPECTED
  let dmarcOk := isExactDmarcMatch txtDmarc cfg.EMAIL_DMARC_EXPECTED
  let dkimOk := dkimCnameRecords.any
    (fun record => normalizeHost record == expectedDkimCname)
  let cnameMeta := capAndSanitizeHosts cfg cnameRecords
  let dkimCnameMeta := capAndSanitizeHosts cfg dkimCnameRecords
  let mxMeta := capAndSanitizeMx cfg mxRecords
  let txtApexMeta := capAndSanitizeTxt cfg txtApex
  let txtDmarcMeta := capAndSanitizeTxt cfg txtDmarc
  let cnameEntry : JVal := .obj
    ([("key", .str "CNAME"), ("type", .str "CNAME"), ("name", .str apexName),
      ("expected", .str expectedCname), ("found", .arr cnameMeta.values),
      ("ok", .bool cnameOk),
      ("found_truncated", .bool (cnameMeta.truncated || cnameMeta.valueTruncated))] ++
     (if !authorizedCnameIps.isEmpty then
        [("expected_ips", .arr (authorizedCnameIps.map JVal.str))]
      else []) ++
     (match cnameChainResolution with
      | some c => [("found_ips", .arr (c.resolvedIps.map JVal.str)),
                   ("chain_reason", .str c.reason)]
      | none => []))
  let missing : List JVal :=
    [cnameEntry,
     .obj [("key", .str "MX"), ("type", .str "MX"), ("name", .str apexName),
           ("expected", .obj [("host", .str expectedMxHost),
                              ("priority", .num cfg.EMAIL_MX_EXPECTED_PRIORITY)]),
           ("found", .arr mxMeta.values), ("ok", .bool mxOk),
           ("found_truncated", .bool (mxMeta.truncated || mxMeta.valueTruncated))],
     .obj [("key", .str "SPF"), ("type", .str "TXT"), ("name", .str apexName),
           ("expected", .str cfg.EMAIL_SPF_EXPECTED),
           ("found", .arr txtApexMeta.values), ("ok", .bool spfOk),
           ("found_truncated", .bool (txtApexMeta.truncated || txtApexMeta.valueTruncated))],
     .obj [("key", .str "DMARC"), ("type", .str "TXT"), ("name", .str dmarcName),
           ("expected", .str cfg.EMAIL_DMARC_EXPECTED),
           ("found", .arr txtDmarcMeta.values), ("ok", .bool dmarcOk),
           ("found_truncated", .bool (txtDmarcMeta.truncated || txtDmarcMeta.valueTruncated))],
     .obj [("key", .str "DKIM"), ("type", .str "CNAME"), ("name", .str dkimName),
           ("expected", .str expectedDkimCname),
           ("found", .arr dkimCnameMeta.values), ("ok", .bool dkimOk),
           ("found_truncated", .bool (dkimCnameMeta.truncated || dkimCnameMeta.valueTruncated))]]
  { ok := cnameOk && mxOk && spfOk && dmarcOk && dkimOk, missing := missing }

/-! ## Job scheduler (src/unnamed/part_005: jobs map, queue, admission) -/

structure SchedRow where
  id : Nat
  type : String
  target : String
deriving DecidableEq, Repr

def getKey (type target : String) : String :=
  type ++ ":" ++ target

structure SchedState where
  jobs : List String
  queue : List SchedRow
  queuedKeys : List String
deriving DecidableEq, Repr

def canStartJob (maxJobs : Nat) (s : SchedState) : Bool :=
  s.jobs.length < maxJobs

/-- startJob: no-op when the key already has a job, otherwise register the
job (interval handles and delays do not affect the jobs map). -/
def startJob (s : SchedState) (row : SchedRow) : SchedState :=
  if getKey row.type row.target ∈ s.jobs then s
  else { s with jobs := s.jobs ++ [getKey row.type row.target] }

/-- enqueue: no-op when the key already has a job or is already queued. -/
def enqueue (s : SchedState) (row : SchedRow) : SchedState :=
  if getKey row.type row.target ∈ s.jobs ∨ getKey row.type row.target ∈ s.queuedKeys then s
  else { s with queue := s.queue ++ [row],
                queuedKeys := s.queuedKeys ++ [getKey row.type row.target] }

/-- drainQueue: promote queued rows FIFO while below the cap. The fuel is the
queue length, which bounds the number of shifts the while loop can make. -/
def drainQueueAux (maxJobs : Nat) : Nat → SchedState → SchedState
  | 0, s => s
  | fuel+1, s =>
    if canStartJob maxJobs s then
      match s.queue with
      | [] => s
      | row :: rest =>
        drainQueueAux maxJobs fuel
          (startJob { s with queue := rest,
                             queuedKeys := s.queuedKeys.filter
                               (fun k => !(k == getKey row.type row.target)) } row)
    else s

def drainQueue (maxJobs : Nat) (s : SchedState) : SchedState :=
  drainQueueAux maxJobs s.queue.length s

/-- stopJob(key): remove the job if present, then drain the queue. -/
def stopJob (maxJobs : Nat) (s : SchedState) (key : String) : SchedState :=
  if key ∈ s.jobs then
    drainQueue maxJobs { s with jobs := s.jobs.filter (fun k => !(k == key)) }
  else s

/-- startForRequest(row): no-op when a job exists; start below the cap,
enqueue otherwise. -/
def startForRequest (maxJobs : Nat) (s : SchedState) (row : SchedRow) : SchedState :=
  if getKey row.type row.target ∈ s.jobs then s
  else if !canStartJob maxJobs s then enqueue s row
  else startJob s row

/-- resumePending(rows): startForRequest for each resumed row (the startup
jitter delay does not affect the jobs map), then a final drainQueue. -/
def resumePending (maxJobs : Nat) (s : SchedState) (rows : List SchedRow) : SchedState :=
  drainQueue maxJobs (rows.foldl (startForRequest maxJobs) s)

/-- The scheduler operations reachable from the module surface (runCheck stops
jobs through stopJob). -/
inductive SchedOp where
  | startForRequest (row : SchedRow)
  | stopJob (key : String)
  | resumePending (rows : List SchedRow)

def schedStep (maxJobs : Nat) (s : SchedState) : SchedOp → SchedState
  | .startForRequest row => startForRequest maxJobs s row
  | .stopJob key => stopJob maxJobs s key
  | .resumePending rows => resumePending maxJobs s rows

def schedInit : SchedState := ⟨[], [], []⟩

def schedRun (maxJobs : Nat) (ops : List SchedOp) : SchedState :=
  ops.foldl (schedStep maxJobs) schedInit

/-! ## Request rows and the status-changing UPDATE statements

All five UPDATE statements the service issues against dns_requests are
modelled (two from src/app/routes/request.js, three from the job runner in
src/unnamed/part_005); timestamps are abstract Nats. -/

inductive Status where
  | PENDING : Status
  | ACTIVE : Status
  | EXPIRED : Status
  | FAILED : Status
deriving DecidableEq, Repr

structure ReqRow where
  status : Status
  activated_at : Option Nat
  fail_reason : Option String
  last_checked_at : Option Nat
  next_check_at : Option Nat
  last_check_result_json : Option String
deriving DecidableEq, Repr

inductive DbOp where
  /-- updateStatus in the job runner: SET status (plus activated_at for
  ACTIVE, fail_reason for EXPIRED or FAILED) WHERE status = PENDING. -/
  | updateStatusConditional (newStatus : Status) (failReason : Option String) (nowTs : Nat)
  /-- the immediate-check promotion in the intake route: SET status = ACTIVE,
  activated_at WHERE status = PENDING. -/
  | immediatePromote (nowTs : Nat)
  /-- the job tick result write: SET last_checked_at, next_check_at,
  last_check_result_json WHERE status = PENDING. -/
  | updateCheckResultConditional (nowTs nextTs : Nat) (json : String)
  /-- the immediate-check result write: same SET, unconditional. -/
  | updateCheckResultUnconditional (nowTs nextTs : Nat) (json : String)
  /-- the error-path write in the job tick: SET fail_reason, unconditional. -/
  | setFailReason (reason : String)

def applyDbOp (row : ReqRow) : DbOp → ReqRow
  | .updateStatusConditional newStatus failReason nowTs =>
    if row.status = .PENDING then
      { row with
        status := newStatus,
        activated_at := if newStatus = .ACTIVE then some nowTs else row.activated_at,
        fail_reason :=
          if newStatus = .EXPIRED ∨ newStatus = .FAILED then failReason else row.fail_reason }
    else row
  | .immediatePromote nowTs =>
    if row.status = .PENDING then
      { row with status := .ACTIVE, activated_at := some nowTs }
    else row
  | .updateCheckResultConditional nowTs nextTs json =>
    if row.status = .PENDING then
      { row with last_checked_at := some nowTs, next_check_at := some nextTs,
                 last_check_result_json := some json }
    else row
  | .updateCheckResultUnconditional nowTs nextTs json =>
    { row with last_checked_at := some nowTs, next_check_at := some nextTs,
               last_check_result_json := some json }
  | .setFailReason reason =>
    { row with fail_reason := some reason }

/-! ## Intake route (src/app/routes/request.js: handleRequest and routing)

The environment carries the outcome of each collaborator the handler
consults, in the order the source consults them; the result records the HTTP
status and the side effects the handler performed. -/

structure IntakeEnv where
  /-- extractTargetFromBody: the normalized target, or a 400 validation error. -/
  bodyTarget : Except String String
  activeJobs : Nat
  maxJobs : Nat
  /-- enforceCooldown throws a 429. -/
  cooldownBlocked : Bool
  /-- the INSERT hits the (target, type) unique key. -/
  insertDuplicate : Bool
  /-- runImmediateCheck outcome: none models a throw, some ok the verdict. -/
  immediateCheck : Option Bool

structure IntakeResult where
  httpStatus : Nat
  insertedRow : Bool
  ranImmediateCheck : Bool
  startedJob : Bool
  responseStatusField : Option String
deriving DecidableEq, Repr

def handleRequest (_type : String) (env : IntakeEnv) : IntakeResult :=
  match env.bodyTarget with
  | .error _ => ⟨400, false, false, false, none⟩
  | .ok _ =>
    if env.maxJobs ≤ env.activeJobs then ⟨503, false, false, false, none⟩
    else if env.cooldownBlocked then ⟨429, false, false, false, none⟩
    else if env.insertDuplicate then ⟨409, false, false, false, none⟩
    else
      match env.immediateCheck with
      | some true => ⟨200, true, true, false, some "ACTIVE"⟩
      | some false => ⟨202, true, true, true, some "PENDING"⟩
      | none => ⟨202, true, true, true, some "PENDING"⟩

/-- router.post('/request/ui', ...) routes into handleRequest('UI', ...). -/
def postRequestUi (env : IntakeEnv) : IntakeResult :=
  handleRequest "UI" env

/-- router.post('/request/email', ...) routes into handleRequest('EMAIL', ...). -/
def postRequestEmail (env : IntakeEnv) : IntakeResult :=
  handleRequest "EMAIL" env

/-! ## Sanitizer normal forms (for claim C9)

The normalisation pipeline of sanitizeForLogAndEmail is idempotent because
its output contains no control characters, no two adjacent whitespace
characters, and no leading or trailing whitespace; these predicates
characterise its fixed points. -/

/-- No control characters. -/
def NoCtrl (l : List Char) : Prop := ∀ c ∈ l, isCtrl c = false

/-- No two adjacent whitespace characters. -/
def NoWs2 (l : List Char) : Prop :=
  l.Chain' (fun a b => isJsWs a = true → isJsWs b = false)

/-- The first character, when present, is not whitespace. -/
def HeadOk (l : List Char) : Prop := ∀ c, l.head? = some c → isJsWs c = false

/-- The last character, when present, is not whitespace. -/
def LastOk (l : List Char) : Prop := ∀ c, l.getLast? = some c → isJsWs c = false

/-- The whitespace status of the first character. -/
def headWsB : List Char → Bool
  | [] => false
  | c :: _ => isJsWs c

theorem isCrlfTab_isCtrl {c : Char} (h : isCrlfTab c = true) : isCtrl c = true := by
  simp only [isCrlfTab, Bool.or_eq_true, beq_iff_eq] at h
  rcases h with (h | h) | h <;> subst h <;> decide

theorem replaceRuns_eq_self {p : Char → Bool} :
    ∀ {l : List Char}, (∀ c ∈ l, p c = false) → replaceRuns p l = l := by
  intro l
  induction l with
  | nil => intro _; rfl
  | cons c cs ih =>
    intro h
    have hc : p c = false := h c (List.mem_cons_self c cs)
    show replaceRunsAux p false (c :: cs) = c :: cs
    simp only [replaceRunsAux, hc, Bool.false_eq_true, if_false]
    exact congrArg (c :: ·) (ih fun c' hc' => h c' (List.mem_cons_of_mem _ hc'))

theorem stripControl_eq_self {l : List Char} (h : NoCtrl l) : stripControlChars l = l :=
  List.filter_eq_self.mpr fun c hc => by rw [h c hc]; rfl

theorem stripControl_noCtrl (l : List Char) : NoCtrl (stripControlChars l) := by
  intro c hc
  have := List.of_mem_filter hc
  simpa using this

theorem collapse_pair :
    ∀ l : List Char, NoWs2 l →
      collapseWs2Aux .idle l = l ∧
      (∀ w, HeadOk l → collapseWs2Aux (.one w) l = w :: l) := by
  intro l
  induction l with
  | nil => intro _; exact ⟨rfl, fun w _ => rfl⟩
  | cons c cs ih =>
    intro h
    have hcs : NoWs2 cs := h.tail
    have hrel : ∀ b, cs.head? = some b → isJsWs c = true → isJsWs b = false := by
      intro b hb
      exact (List.chain'_cons'.mp h).1 b hb
    constructor
    · show collapseWs2Aux .idle (c :: cs) = c :: cs
      cases hc : isJsWs c with
      | true =>
        have hhead : HeadOk cs := fun b hb => hrel b hb hc
        simp only [collapseWs2Aux, hc, if_true]
        exact (ih hcs).2 c hhead
      | false =>
        simp only [collapseWs2Aux, hc, Bool.false_eq_true, if_false]
        exact congrArg (c :: ·) (ih hcs).1
    · intro w hw
      have hc : isJsWs c = false := hw c rfl
      show collapseWs2Aux (.one w) (c :: cs) = w :: c :: cs
      simp only [collapseWs2Aux, hc, Bool.false_eq_true, if_false]
      exact congrArg (fun t => w :: c :: t) (ih hcs).1

theorem chain'_cons_of_not_ws {c : Char} {l : List Char} (hc : isJsWs c = false)
    (hl : NoWs2 l) : NoWs2 (c :: l) := by
  rw [NoWs2, List.chain'_cons']
  exact ⟨fun b _ hws => absurd hws (by rw [hc]; simp), hl⟩

theorem noWs2_cons_cons {a c : Char} {m : List Char} (hc : isJsWs c = false)
    (hm : NoWs2 m) : NoWs2 (a :: c :: m) := by
  refine List.chain'_cons'.mpr ⟨?_, chain'_cons_of_not_ws hc hm⟩
  intro b hb _
  rw [List.head?_cons] at hb
  exact Option.some_inj.mp hb ▸ hc

theorem collapse_props :
    ∀ l : List Char,
      (NoWs2 (collapseWs2Aux .idle l) ∧
        headWsB (collapseWs2Aux .idle l) = headWsB l) ∧
      (∀ w, isJsWs w = true →
        NoWs2 (collapseWs2Aux (.one w) l) ∧
        headWsB (collapseWs2Aux (.one w) l) = true) ∧
      (NoWs2 (collapseWs2Aux .many l) ∧ headWsB (collapseWs2Aux .many l) = true) := by
  intro l
  induction l with
  | nil =>
    refine ⟨⟨List.chain'_nil, rfl⟩, fun w hw => ⟨?_, ?_⟩, ⟨?_, ?_⟩⟩
    · exact List.chain'_singleton w
    · simpa [headWsB] using hw
    · exact List.chain'_singleton ' '
    · decide
  | cons c cs ih =>
    obtain ⟨⟨hidle, hidleW⟩, hone, ⟨hmany, hmanyW⟩⟩ := ih
    refine ⟨?_, ?_, ?_⟩
    · cases hc : isJsWs c with
      | true =>
        constructor
        · simp only [collapseWs2Aux, hc, if_true]
          exact (hone c hc).1
        · simp only [collapseWs2Aux, hc, if_true]
          rw [(hone c hc).2]
          simp [headWsB, hc]
      | false =>
        constructor
        · simp only [collapseWs2Aux, hc, Bool.false_eq_true, if_false]
          exact chain'_cons_of_not_ws hc hidle
        · simp only [collapseWs2Aux, hc, Bool.false_eq_true, if_false]
          simp [headWsB]
    · intro w hw
      cases hc : isJsWs c with
      | true =>
        constructor
        · simp only [collapseWs2Aux, hc, if_true]
          exact hmany
        · simp only [collapseWs2Aux, hc, if_true]
          exact hmanyW
      | false =>
        constructor
        · simp only [collapseWs2Aux, hc, Bool.false_eq_true, if_false]
          exact noWs2_cons_cons hc hidle
        · simp only [collapseWs2Aux, hc, Bool.false_eq_true, if_false]
          simp [headWsB, hw]
    · cases hc : isJsWs c with
      | true =>
        constructor
        · simp only [collapseWs2Aux, hc, if_true]
          exact hmany
        · simp only [collapseWs2Aux, hc, if_true]
          exact hmanyW
      | false =>
        constructor
        · simp only [collapseWs2Aux, hc, Bool.false_eq_true, if_false]
          exact noWs2_cons_cons hc hidle
        · simp only [collapseWs2Aux, hc, Bool.false_eq_true, if_false]
          simp only [headWsB]
          decide

theorem collapse_noCtrl :
    ∀ l : List Char, NoCtrl l →
      NoCtrl (collapseWs2Aux .idle l) ∧
      (∀ w, isCtrl w = false → NoCtrl (collapseWs2Aux (.one w) l)) ∧
      NoCtrl (collapseWs2Aux .many l) := by
  intro l
  induction l with
  | nil =>
    intro _
    refine ⟨?_, fun w hw => ?_, ?_⟩
    · intro c hc
      cases hc
    · intro c hc
      rw [List.mem_singleton.mp hc]
      exact hw
    · intro c hc
      rw [List.mem_singleton.mp hc]
      decide
  | cons c cs ih =>
    intro h
    have hc : isCtrl c = false := h c (List.mem_cons_self c cs)
    have hcs : NoCtrl cs := fun x hx => h x (List.mem_cons_of_mem _ hx)
    obtain ⟨hidle, hone, hmany⟩ := ih hcs
    have hspace : isCtrl ' ' = false := by decide
    refine ⟨?_, ?_, ?_⟩
    · cases hws : isJsWs c with
      | true =>
        simp only [collapseWs2Aux, hws, if_true]
        exact hone c hc
      | false =>
        simp only [collapseWs2Aux, hws, Bool.false_eq_true, if_false]
        intro x hx
        rcases List.mem_cons.mp hx with rfl | hx
        · exact hc
        · exact hidle x hx
    · intro w hw
      cases hws : isJsWs c with
      | true =>
        simp only [collapseWs2Aux, hws, if_true]
        exact hmany
      | false =>
        simp only [collapseWs2Aux, hws, Bool.false_eq_true, if_false]
        intro x hx
        rcases List.mem_cons.mp hx with rfl | hx
        · exact hw
        · rcases List.mem_cons.mp hx with rfl | hx
          · exact hc
          · exact hidle x hx
    · cases hws : isJsWs c with
      | true =>
        simp only [collapseWs2Aux, hws, if_true]
        exact hmany
      | false =>
        simp only [collapseWs2Aux, hws, Bool.false_eq_true, if_false]
        intro x hx
        rcases List.mem_cons.mp hx with rfl | hx
        · exact hspace
        · rcases List.mem_cons.mp hx with rfl | hx
          · exact hc
          · exact hidle x hx

/-! ## Chain-walk lemmas (for claims C5 and C8) -/

theorem chainProcessHosts_inl_ok (r : Resolver) (auth : List String) :
    ∀ (hosts : List String) (acc : ChainAcc) (nh : List String) (res : ChainResult),
      chainProcessHosts r auth hosts acc nh = .inl res → res.ok = true := by
  intro hosts
  induction hosts with
  | nil =>
    intro acc nh res h
    simp [chainProcessHosts] at h
  | cons rawHost rest ih =>
    intro acc nh res h
    simp only [chainProcessHosts] at h
    split at h
    · exact ih _ _ _ h
    · split at h
      · exact ih _ _ _ h
      · split at h
        · exact ih _ _ _ h
        · split at h
          · next heq => cases h; rfl
          · next heq => exact ih _ _ _ h

theorem chainResultOf_shape (hosts : List String) (b : Bool) (acc : ChainAcc) :
    (chainResultOf hosts b acc).reason =
      (if (chainResultOf hosts b acc).reachedMaxDepth then "max_chain_depth_reached"
       else if (chainResultOf hosts b acc).loopDetected then "cname_loop_detected"
       else "authorized_ip_not_found") := rfl

/-- Every chainLoop outcome is either a success (ok) or literally a post-loop
chainResultOf value. -/
theorem chainLoop_shape_or (r : Resolver) (auth : List String) :
    ∀ (fuel : Nat) (hosts : List String) (acc : ChainAcc) (count : Nat),
      (chainLoop r auth fuel hosts acc count).1.ok = true ∨
      ∃ hs b acc₂, (chainLoop r auth fuel hosts acc count).1 = chainResultOf hs b acc₂ := by
  intro fuel
  induction fuel with
  | zero => intro hosts acc count; exact Or.inr ⟨hosts, true, acc, rfl⟩
  | succ fuel ih =>
    intro hosts acc count
    simp only [chainLoop]
    split
    · exact Or.inr ⟨hosts, false, acc, rfl⟩
    · split
      · next success heq =>
        exact Or.inl (chainProcessHosts_inl_ok r auth hosts acc [] success heq)
      · next acc' nextHosts heq =>
        split
        · exact Or.inr ⟨hosts, false, acc', rfl⟩
        · exact ih _ _ _

theorem chainLoop_fail_shape (r : Resolver) (auth : List String)
    (fuel : Nat) (hosts : List String) (acc : ChainAcc) (count : Nat)
    (hok : (chainLoop r auth fuel hosts acc count).1.ok = false) :
    (chainLoop r auth fuel hosts acc count).1.reason =
      (if (chainLoop r auth fuel hosts acc count).1.reachedMaxDepth then
         "max_chain_depth_reached"
       else if (chainLoop r auth fuel hosts acc count).1.loopDetected then
         "cname_loop_detected"
       else "authorized_ip_not_found") := by
  rcases chainLoop_shape_or r auth fuel hosts acc count with hT | ⟨hs, b, acc₂, heq⟩
  · rw [hT] at hok; cases hok
  · rw [heq]; exact chainResultOf_shape hs b acc₂

theorem chainLoop_count (r : Resolver) (auth : List String) :
    ∀ (fuel : Nat) (hosts : List String) (acc : ChainAcc) (count : Nat),
      (chainLoop r auth fuel hosts acc count).2 ≤ count + fuel := by
  intro fuel
  induction fuel with
  | zero => intro hosts acc count; simp [chainLoop]
  | succ fuel ih =>
    intro hosts acc count
    simp only [chainLoop]
    split
    · omega
    · split
      · exact show count + 1 ≤ count + (fuel + 1) by omega
      · next acc' nextHosts heq =>
        split
        · exact show count + 1 ≤ count + (fuel + 1) by omega
        · have h := ih (dedupKeepFirst nextHosts) acc' (count + 1)
          omega

def ChainInv (acc : ChainAcc) : Prop :=
  acc.chain.Nodup ∧ ∀ x ∈ acc.chain, x ∈ acc.visited

theorem chainInv_addHost {acc : ChainAcc} {host : String}
    (hinv : ChainInv acc) (hno : host ∉ acc.visited) :
    ChainInv { acc with visited := acc.visited ++ [host],
                        chain := acc.chain ++ [host] } := by
  constructor
  · have hchain : host ∉ acc.chain := fun hm => hno (hinv.2 host hm)
    simp [List.nodup_append, hinv.1, hchain]
  · intro x hx
    rcases List.mem_append.mp hx with hx | hx
    · exact List.mem_append.mpr (Or.inl (hinv.2 x hx))
    · exact List.mem_append.mpr (Or.inr hx)

theorem chainProcessHosts_inv (r : Resolver) (auth : List String) :
    ∀ (hosts : List String) (acc : ChainAcc) (nh : List String), ChainInv acc →
      (∀ res, chainProcessHosts r auth hosts acc nh = .inl res → res.chain.Nodup) ∧
      (∀ acc' nh', chainProcessHosts r auth hosts acc nh = .inr (acc', nh') →
        ChainInv acc') := by
  intro hosts
  induction hosts with
  | nil =>
    intro acc nh hinv
    constructor
    · intro res h; simp [chainProcessHosts] at h
    · intro acc' nh' h
      simp only [chainProcessHosts, Sum.inr.injEq, Prod.mk.injEq] at h
      rw [← h.1]
      exact hinv
  | cons rawHost rest ih =>
    intro acc nh hinv
    constructor
    · intro res h
      simp only [chainProcessHosts] at h
      split at h
      · exact (ih _ _ hinv).1 res h
      · split at h
        · refine (ih _ _ ?_).1 res h
          exact hinv
        · next h2 =>
          split at h
          · refine (ih _ _ ?_).1 res h
            exact chainInv_addHost hinv h2
          · split at h
            · next heq =>
              cases h
              exact (chainInv_addHost hinv h2).1
            · next heq =>
              refine (ih _ _ ?_).1 res h
              exact chainInv_addHost hinv h2
    · intro acc' nh' h
      simp only [chainProcessHosts] at h
      split at h
      · exact (ih _ _ hinv).2 acc' nh' h
      · split at h
        · refine (ih _ _ ?_).2 acc' nh' h
          exact hinv
        · next h2 =>
          split at h
          · refine (ih _ _ ?_).2 acc' nh' h
            exact chainInv_addHost hinv h2
          · split at h
            · next heq => cases h
            · next heq =>
              refine (ih _ _ ?_).2 acc' nh' h
              exact chainInv_addHost hinv h2

theorem chainLoop_nodup (r : Resolver) (auth : List String) :
    ∀ (fuel : Nat) (hosts : List String) (acc : ChainAcc) (count : Nat), ChainInv acc →
      (chainLoop r auth fuel hosts acc count).1.chain.Nodup := by
  intro fuel
  induction fuel with
  | zero => intro hosts acc count hinv; exact hinv.1
  | succ fuel ih =>
    intro hosts acc count hinv
    rw [chainLoop]
    split
    · exact hinv.1
    · split
      · next success heq =>
        exact (chainProcessHosts_inv r auth hosts acc [] hinv).1 success heq
      · next acc' nextHosts heq =>
        have hinv' := (chainProcessHosts_inv r auth hosts acc [] hinv).2 acc' nextHosts heq
        split
        · exact hinv'.1
        · exact ih _ _ _ hinv'

/-! ## Claims C5 and C8: CNAME chain walk behaviour and bounds -/

/-- A zone where apex.test resolves through two CNAME hops to an A record. -/
def chainScenarioResolver : Resolver :=
  { cname := fun h =>
      if h == "apex.test" then ["cnamea.test"]
      else if h == "cnamea.test" then ["cnameb.test"]
      else [],
    a4 := fun h => if h == "cnameb.test" then ["1.2.3.4"] else [],
    a6 := fun _ => [], mx := fun _ => [], txt := fun _ => [] }

/-- A zone with the CNAME cycle a.test to b.test and back. -/
def cycleScenarioResolver : Resolver :=
  { cname := fun h =>
      if h == "a.test" then ["b.test"]
      else if h == "b.test" then ["a.test"]
      else [],
    a4 := fun _ => [], a6 := fun _ => [], mx := fun _ => [], txt := fun _ => [] }

/-- Claim C5: (1) a chain apex to cnameA to cnameB to an authorized A record
yields ok with reason authorized_ip_match for every sufficient maxDepth;
(2) a CNAME cycle a to b to a yields not-ok with reason cname_loop_detected
for every sufficient maxDepth; (3) whenever the walk returns not-ok, the
reason follows the priority max_chain_depth_reached over cname_loop_detected
over authorized_ip_not_found. -/
theorem c5_cname_chain_behavior :
    (∀ d, 3 ≤ d →
      (resolveCnameChainToAuthorizedIp chainScenarioResolver "apex.test" ["1.2.3.4"] d).1 =
        { ok := true, chain := ["apex.test", "cnamea.test", "cnameb.test"],
          resolvedIps := ["1.2.3.4"], reason := "authorized_ip_match",
          reachedMaxDepth := false, loopDetected := false }) ∧
    (∀ d, 3 ≤ d →
      (resolveCnameChainToAuthorizedIp cycleScenarioResolver "a.test" ["9.9.9.9"] d).1 =
        { ok := false, chain := ["a.test", "b.test"], resolvedIps := [],
          reason := "cname_loop_detected", reachedMaxDepth := false,
          loopDetected := true }) ∧
    (∀ (r : Resolver) (startHost : String) (authorizedIps : List String) (maxDepth : Nat),
      (resolveCnameChainToAuthorizedIp r startHost authorizedIps maxDepth).1.ok = false →
      (resolveCnameChainToAuthorizedIp r startHost authorizedIps maxDepth).1.reason =
        (if (resolveCnameChainToAuthorizedIp r startHost authorizedIps maxDepth).1.reachedMaxDepth
         then "max_chain_depth_reached"
         else if (resolveCnameChainToAuthorizedIp r startHost authorizedIps
             maxDepth).1.loopDetected
         then "cname_loop_detected"
         else "authorized_ip_not_found")) := by
  refine ⟨?_, ?_, ?_⟩
  · intro d hd
    obtain ⟨k, rfl⟩ : ∃ k, d = k + 3 := ⟨d - 3, by omega⟩
    rfl
  · intro d hd
    obtain ⟨k, rfl⟩ : ∃ k, d = k + 3 := ⟨d - 3, by omega⟩
    rfl
  · intro r startHost authorizedIps maxDepth hok
    exact chainLoop_fail_shape r _ maxDepth _ _ 0 hok

/-- Witness for C5 at concrete depths and at a concrete failing walk. -/
theorem c5_cname_chain_behavior_witness :
    (resolveCnameChainToAuthorizedIp chainScenarioResolver "apex.test" ["1.2.3.4"] 10).1 =
      { ok := true, chain := ["apex.test", "cnamea.test", "cnameb.test"],
        resolvedIps := ["1.2.3.4"], reason := "authorized_ip_match",
        reachedMaxDepth := false, loopDetected := false } ∧
    (resolveCnameChainToAuthorizedIp cycleScenarioResolver "a.test" ["9.9.9.9"] 3).1 =
      { ok := false, chain := ["a.test", "b.test"], resolvedIps := [],
        reason := "cname_loop_detected", reachedMaxDepth := false,
        loopDetected := true } ∧
    (resolveCnameChainToAuthorizedIp cycleScenarioResolver "a.test" ["9.9.9.9"] 3).1.reason =
      (if (resolveCnameChainToAuthorizedIp cycleScenarioResolver "a.test" ["9.9.9.9"]
          3).1.reachedMaxDepth
       then "max_chain_depth_reached"
       else if (resolveCnameChainToAuthorizedIp cycleScenarioResolver "a.test" ["9.9.9.9"]
           3).1.loopDetected
       then "cname_loop_detected"
       else "authorized_ip_not_found") :=
  ⟨c5_cname_chain_behavior.1 10 (by omega),
   c5_cname_chain_behavior.2.1 3 (by omega),
   c5_cname_chain_behavior.2.2 cycleScenarioResolver "a.test" ["9.9.9.9"] 3 (by decide)⟩

/-- Claim C8: the chain walk performs at most maxDepth frontier expansions
(the ghost counter of loop iterations) and processes each host at most once
(the chain of processed hosts has no duplicates); total in Lean, the embedded
walk terminates on every input including cyclic CNAME graphs. -/
theorem c8_chain_walk_bounded :
    ∀ (r : Resolver) (startHost : String) (authorizedIps : List String) (maxDepth : Nat),
      (resolveCnameChainToAuthorizedIp r startHost authorizedIps maxDepth).2 ≤ maxDepth ∧
      (resolveCnameChainToAuthorizedIp r startHost authorizedIps maxDepth).1.chain.Nodup := by
  intro r startHost authorizedIps maxDepth
  constructor
  · have h := chainLoop_count r ((authorizedIps.map normalizeIp).filter (fun s => !(s == "")))
      maxDepth
      (if normalizeHost startHost == "" then [] else [normalizeHost startHost])
      ⟨[], [], [], false, false⟩ 0
    show (chainLoop r ((authorizedIps.map normalizeIp).filter (fun s => !(s == "")))
      maxDepth
      (if normalizeHost startHost == "" then [] else [normalizeHost startHost])
      ⟨[], [], [], false, false⟩ 0).2 ≤ maxDepth
    omega
  · exact chainLoop_nodup r _ maxDepth _ _ 0 ⟨List.nodup_nil, by simp⟩

/-! ## Claim C6: SPF exact matching -/

/-- Claim C6: the SPF check succeeds exactly when some TXT record at the apex,
after whitespace collapse, trim and lowercasing, equals the identically
normalized EMAIL_SPF_EXPECTED (stated for expected values that do not
normalize to the empty string, which the check rejects outright); in
particular the DNS value with doubled spaces and uppercase MX matches, and
substring containment does not suffice. -/
theorem c6_spf_exact_match :
    (∀ (records : List String) (expected : String),
       normalizeSpfRecord expected ≠ "" →
       (isExactSpfMatch records expected = true ↔
         ∃ record ∈ records, normalizeSpfRecord record = normalizeSpfRecord expected)) ∧
    isExactSpfMatch ["v=spf1  MX  -all"] "v=spf1 mx -all" = true ∧
    isExactSpfMatch ["v=spf1 mx -all extra"] "v=spf1 mx -all" = false := by
  refine ⟨?_, by decide, by decide⟩
  intro records expected h
  have hbe : (normalizeSpfRecord expected == "") = false := beq_eq_false_iff_ne.mpr h
  simp [isExactSpfMatch, hbe, List.any_eq_true]

/-- Witness for C6 at a concrete record list and expected value. -/
theorem c6_spf_exact_match_witness :
    isExactSpfMatch ["v=spf1 mx -all"] "v=spf1 mx -all" = true :=
  (c6_spf_exact_match.1 ["v=spf1 mx -all"] "v=spf1 mx -all" (by decide)).mpr
    ⟨"v=spf1 mx -all", by simp, rfl⟩

/-! ## Unified-missing lemmas (for claims C4 and C10) -/

theorem setField_mem {m : List (String × JVal)} {k : String} {v : JVal} :
    ∀ q ∈ setField m k v, q ∈ m ∨ q = (k, v) := by
  induction m with
  | nil =>
    intro q hq
    simp only [setField, List.mem_singleton] at hq
    exact Or.inr hq
  | cons p m ih =>
    intro q hq
    simp only [setField] at hq
    split at hq
    · rcases List.mem_cons.mp hq with h | h
      · exact Or.inr h
      · exact Or.inl (List.mem_cons_of_mem _ h)
    · rcases List.mem_cons.mp hq with h | h
      · exact Or.inl (h ▸ List.mem_cons_self _ _)
      · rcases ih q h with h' | h'
        · exact Or.inl (List.mem_cons_of_mem _ h')
        · exact Or.inr h'

/-- The property every pair in the foundByKey map satisfies: the stored item is
a truthy value whose key property uppercases to the map key. -/
def FoundProp (q : String × JVal) : Prop :=
  (∃ s, getField q.2 "key" = some (.str s) ∧ jsToUpper s = q.1) ∧ jsTruthy q.2 = true

theorem foundStep_prop {m : List (String × JVal)} {item : JVal}
    (hm : ∀ q ∈ m, FoundProp q) : ∀ q ∈ foundStep m item, FoundProp q := by
  intro q hq
  unfold foundStep at hq
  split at hq
  · next htr =>
    split at hq
    · next s hkey =>
      split at hq
      · exact hm q hq
      · rcases setField_mem q hq with h | h
        · exact hm q h
        · subst h
          have htr' : jsTruthy item = true := by
            rw [Bool.and_eq_true] at htr
            exact htr.1
          exact ⟨⟨s, hkey, rfl⟩, htr'⟩
    · exact hm q hq
  · exact hm q hq

theorem foundByKeyOf_prop (base : JVal) : ∀ q ∈ foundByKeyOf base, FoundProp q := by
  cases base with
  | arr xs =>
    have : ∀ (l : List JVal) (m : List (String × JVal)), (∀ q ∈ m, FoundProp q) →
        ∀ q ∈ l.foldl foundStep m, FoundProp q := by
      intro l
      induction l with
      | nil => intro m hm; exact hm
      | cons item rest ih =>
        intro m hm
        simp only [List.foldl_cons]
        exact ih _ (foundStep_prop hm)
    exact this xs [] (by simp)
  | null => simp [foundByKeyOf]
  | bool b => simp [foundByKeyOf]
  | num n => simp [foundByKeyOf]
  | str s => simp [foundByKeyOf]
  | obj kvs => simp [foundByKeyOf]

theorem mapGet_mem {m : List (String × JVal)} {k : String} {v : JVal}
    (h : mapGet m k = some v) : (k, v) ∈ m := by
  unfold mapGet at h
  cases hf : m.find? (fun p => p.1 == k) with
  | none => rw [hf] at h; cases h
  | some p =>
    rw [hf] at h
    have hk : p.1 = k := by
      have := List.find?_some hf
      simpa using this
    have hp : p ∈ m := List.mem_of_find?_eq_some hf
    have : (k, v) = p := by
      cases h
      rw [← hk]
    rw [this]
    exact hp

theorem unified_entry_key (cfg : Config) (base : JVal) (target : String) :
    (keyUpper (getField (unifiedPick cfg base target "CNAME") "key") = "CNAME") ∧
    (keyUpper (getField (unifiedPick cfg base target "MX") "key") = "MX") ∧
    (keyUpper (getField (unifiedPick cfg base target "SPF") "key") = "SPF") ∧
    (keyUpper (getField (unifiedPick cfg base target "DMARC") "key") = "DMARC") := by
  have main : ∀ k,
      keyUpper (getField ((mapGet (fallbackByKeyOf cfg target) k).getD .null) "key") = k →
      keyUpper (getField (unifiedPick cfg base target k) "key") = k := by
    intro k hfb
    unfold unifiedPick
    cases hfind : mapGet (foundByKeyOf base) k with
    | none => exact hfb
    | some item =>
      have hp := foundByKeyOf_prop base (k, item) (mapGet_mem hfind)
      obtain ⟨⟨s, hs, hsu⟩, htr⟩ := hp
      dsimp only at hs hsu htr
      dsimp only
      rw [if_pos htr, hs]
      exact hsu
  exact ⟨main "CNAME" rfl, main "MX" rfl, main "SPF" rfl, main "DMARC" rfl⟩

theorem ensureUnifiedMissing_keys (cfg : Config) (missing : JVal) (target : String) :
    (ensureUnifiedMissing cfg missing target).map (fun e => keyUpper (getField e "key")) =
      unifiedKeys := by
  unfold ensureUnifiedMissing
  obtain ⟨h1, h2, h3, h4⟩ := unified_entry_key cfg (withMissingNames missing target) target
  simp only [unifiedKeys, List.map_cons, List.map_nil, h1, h2, h3, h4]

theorem fallbackMissing_keys (cfg : Config) (target : String) :
    (fallbackMissing cfg target).map (fun e => keyUpper (getField e "key")) = unifiedKeys :=
  rfl

/-- The fall-through path always produces either a unified list or the
fallback list. -/
theorem rowMissingDebounced_shape (cfg : Config) (canRun : Bool)
    (live : Except Unit JVal) (target : String) :
    (∃ m, rowMissingDebounced cfg canRun live target = ensureUnifiedMissing cfg m target) ∨
    rowMissingDebounced cfg canRun live target = fallbackMissing cfg target := by
  cases canRun with
  | false => exact Or.inr rfl
  | true =>
    cases live with
    | ok m => exact Or.inl ⟨m, rfl⟩
    | error e => exact Or.inr rfl

/-- The persisted-JSON path only ever produces a unified list. -/
theorem rowMissingFromJson_shape (cfg : Config) (parse : String → Option JVal)
    (target : String) (o : Option String) (l : List JVal)
    (h : rowMissingFromJson cfg parse target o = some l) :
    ∃ m, l = ensureUnifiedMissing cfg m target := by
  cases o with
  | none => cases h
  | some s =>
    simp only [rowMissingFromJson] at h
    split at h
    · cases h
    · split at h
      · split at h
        · split at h
          · next m heq =>
            split at h
            · cases h
              exact ⟨m, rfl⟩
            · cases h
          · cases h
        · cases h
      · cases h

theorem getMissingForRow_shape (cfg : Config) (r : RowQ) (parse : String → Option JVal)
    (canRun : Bool) (live : Except Unit JVal) (target : String) :
    ∃ l, getMissingForRow cfg (some r) parse canRun live target = some l ∧
      ((∃ m, l = ensureUnifiedMissing cfg m target) ∨ l = fallbackMissing cfg target) := by
  show ∃ l, (match rowMissingFromJson cfg parse target r.last_check_result_json with
    | some result => some result
    | none => some (rowMissingDebounced cfg canRun live target)) = some l ∧ _
  cases hfj : rowMissingFromJson cfg parse target r.last_check_result_json with
  | some result =>
    exact ⟨result, rfl,
      Or.inl (rowMissingFromJson_shape cfg parse target r.last_check_result_json result hfj)⟩
  | none =>
    exact ⟨rowMissingDebounced cfg canRun live target, rfl,
      rowMissingDebounced_shape cfg canRun live target⟩

/-- A concrete configuration used to instantiate witnesses. -/
def sampleConfig : Config :=
  { UI_CNAME_EXPECTED := "forward.example", UI_CNAME_AUTHORIZED_IPS := [],
    UI_CNAME_MAX_CHAIN_DEPTH := 10, EMAIL_MX_EXPECTED_HOST := "mx.example",
    EMAIL_MX_EXPECTED_PRIORITY := 10, EMAIL_SPF_EXPECTED := "v=spf1 mx -all",
    EMAIL_DMARC_EXPECTED := "v=dmarc1; p=reject", EMAIL_DKIM_SELECTOR := "sel",
    EMAIL_DKIM_CNAME_EXPECTED := "dkim.example", DNS_MAX_RECORDS := 20,
    DNS_MAX_TXT_RECORDS := 50, DNS_MAX_TXT_LENGTH := 512, DNS_MAX_HOST_LENGTH := 253 }

/-- Claim C4: every GET /api/checkdns/:target response with a non-null email
row carries a missing list with exactly one entry for each of CNAME, MX, SPF
and DMARC in that order, on every path (parsed persisted JSON, live check, or
throttled/error fallback); a key absent from the parsed payload is filled from
the synthetic fallback entry, whose found is empty, ok is false and expected
equals the configured value. -/
theorem c4_unified_missing_shape :
    (∀ (cfg : Config) (r : RowQ) (parse : String → Option JVal) (canRun : Bool)
       (live : Except Unit JVal) (target : String),
       ∃ l, getMissingForRow cfg (some r) parse canRun live target = some l ∧
         l.map (fun e => keyUpper (getField e "key")) = unifiedKeys) ∧
    (∀ (cfg : Config) (missing : JVal) (target : String),
       (mapGet (foundByKeyOf (withMissingNames missing target)) "CNAME" = none →
         (ensureUnifiedMissing cfg missing target)[0]? = (fallbackMissing cfg target)[0]?) ∧
       (mapGet (foundByKeyOf (withMissingNames missing target)) "MX" = none →
         (ensureUnifiedMissing cfg missing target)[1]? = (fallbackMissing cfg target)[1]?) ∧
       (mapGet (foundByKeyOf (withMissingNames missing target)) "SPF" = none →
         (ensureUnifiedMissing cfg missing target)[2]? = (fallbackMissing cfg target)[2]?) ∧
       (mapGet (foundByKeyOf (withMissingNames missing target)) "DMARC" = none →
         (ensureUnifiedMissing cfg missing target)[3]? = (fallbackMissing cfg target)[3]?)) ∧
    (∀ (cfg : Config) (target : String),
       (fallbackMissing cfg target).map (fun e => getField e "found") =
         [some (.arr []), some (.arr []), some (.arr []), some (.arr [])] ∧
       (fallbackMissing cfg target).map (fun e => getField e "ok") =
         [some (.bool false), some (.bool false), some (.bool false), some (.bool false)] ∧
       (fallbackMissing cfg target).map (fun e => getField e "expected") =
         [some (.str cfg.UI_CNAME_EXPECTED),
          some (.obj [("host", .str cfg.EMAIL_MX_EXPECTED_HOST),
                      ("priority", .num cfg.EMAIL_MX_EXPECTED_PRIORITY)]),
          some (.str cfg.EMAIL_SPF_EXPECTED),
          some (.str cfg.EMAIL_DMARC_EXPECTED)]) := by
  refine ⟨?_, ?_, ?_⟩
  · intro cfg r parse canRun live target
    obtain ⟨l, hl, hcase⟩ := getMissingForRow_shape cfg r parse canRun live target
    refine ⟨l, hl, ?_⟩
    rcases hcase with ⟨m, rfl⟩ | rfl
    · exact ensureUnifiedMissing_keys cfg m target
    · exact fallbackMissing_keys cfg target
  · intro cfg missing target
    refine ⟨?_, ?_, ?_, ?_⟩ <;>
      · intro h
        simp only [ensureUnifiedMissing, unifiedKeys, List.map_cons, List.map_nil,
          unifiedPick, h]
        rfl
  · intro cfg target
    exact ⟨rfl, rfl, rfl⟩

/-- Witness for C4 at a concrete configuration, row and payload. -/
theorem c4_unified_missing_shape_witness :
    (∃ l, getMissingForRow sampleConfig (some ⟨none⟩) (fun _ => none) false (.error ())
        "t.example" = some l ∧
        l.map (fun e => keyUpper (getField e "key")) = unifiedKeys) ∧
    (ensureUnifiedMissing sampleConfig .null "t.example")[0]? =
      (fallbackMissing sampleConfig "t.example")[0]? :=
  ⟨c4_unified_missing_shape.1 sampleConfig ⟨none⟩ (fun _ => none) false (.error ())
     "t.example",
   (c4_unified_missing_shape.2.1 sampleConfig .null "t.example").1 rfl⟩

/-- Claim C10: the missing list served by GET /api/checkdns/:target never
contains a DKIM entry, on any path, even though the checkEmail result itself
carries a DKIM verdict as its fifth missing entry. -/
theorem c10_no_dkim_in_query_missing :
    (∀ (cfg : Config) (row : Option RowQ) (parse : String → Option JVal) (canRun : Bool)
       (live : Except Unit JVal) (target : String) (l : List JVal),
       getMissingForRow cfg row parse canRun live target = some l →
       ∀ e ∈ l, keyUpper (getField e "key") ≠ "DKIM") ∧
    (∀ (cfg : Config) (r : Resolver) (target : String),
       (checkEmail cfg r target).missing.map (fun e => getField e "key") =
         [some (.str "CNAME"), some (.str "MX"), some (.str "SPF"),
          some (.str "DMARC"), some (.str "DKIM")]) := by
  constructor
  · intro cfg row parse canRun live target l h e he
    cases row with
    | none => cases h
    | some r =>
      obtain ⟨l', hl', hcase⟩ := getMissingForRow_shape cfg r parse canRun live target
      have hll : l = l' := by
        rw [h] at hl'
        exact Option.some_inj.mp hl'
      subst hll
      have hkeys : l.map (fun e => keyUpper (getField e "key")) = unifiedKeys := by
        rcases hcase with ⟨m, rfl⟩ | rfl
        · exact ensureUnifiedMissing_keys cfg m target
        · exact fallbackMissing_keys cfg target
      have hmem : keyUpper (getField e "key") ∈ unifiedKeys := by
        rw [← hkeys]
        exact List.mem_map_of_mem _ he
      intro hdkim
      rw [hdkim] at hmem
      simp [unifiedKeys] at hmem
  · intro cfg r target
    rfl

/-- Witness for C10 at a concrete configuration and the fallback path. -/
theorem c10_no_dkim_in_query_missing_witness :
    keyUpper (getField (JVal.obj [("key", .str "CNAME"), ("type", .str "CNAME"),
      ("name", .str "t.example"), ("expected", .str "forward.example"),
      ("found", .arr []), ("ok", .bool false)]) "key") ≠ "DKIM" :=
  c10_no_dkim_in_query_missing.1 sampleConfig (some ⟨none⟩) (fun _ => none) false
    (.error ()) "t.example" (fallbackMissing sampleConfig "t.example") rfl
    (JVal.obj [("key", .str "CNAME"), ("type", .str "CNAME"),
      ("name", .str "t.example"), ("expected", .str "forward.example"),
      ("found", .arr []), ("ok", .bool false)])
    (List.mem_cons_self _ _)

/-! ## Serialized-size lemmas (for claim C3) -/

theorem byteLength_append (a b : List Char) :
    byteLength (a ++ b) = byteLength a + byteLength b := by
  simp [byteLength]

theorem byteLength_cons (c : Char) (l : List Char) :
    byteLength (c :: l) = c.utf8Size + byteLength l := by
  simp [byteLength]

theorem one_le_byteLength {l : List Char} (h : l ≠ []) : 1 ≤ byteLength l := by
  cases l with
  | nil => cases h rfl
  | cons c cs =>
    rw [byteLength_cons]
    have := Char.utf8Size_pos c
    omega

theorem escapeChar_ne_nil (c : Char) : escapeChar c ≠ [] := by
  unfold escapeChar
  split_ifs <;> simp

theorem length_le_byteLength_escaped (l : List Char) :
    l.length ≤ byteLength ((l.map escapeChar).flatten) := by
  induction l with
  | nil => simp [byteLength]
  | cons c cs ih =>
    simp only [List.map_cons, List.flatten_cons, byteLength_append, List.length_cons]
    have h1 := one_le_byteLength (escapeChar_ne_nil c)
    omega

theorem str_byteLength_lower (s : String) :
    s.data.length ≤ byteLength (stringify (.str s)) := by
  show s.data.length ≤ byteLength (quoteStr s)
  unfold quoteStr
  rw [byteLength_append, byteLength_cons]
  have := length_le_byteLength_escaped s.data
  omega

theorem mem_members_byteLength {kvs : List (String × JVal)} {k : String} {v : JVal}
    (h : (k, v) ∈ kvs) :
    byteLength (stringify v) ≤ byteLength (stringifyMembers kvs) := by
  induction kvs with
  | nil => cases h
  | cons p rest ih =>
    obtain ⟨k', v'⟩ := p
    cases rest with
    | nil =>
      have : (k, v) = (k', v') := List.mem_singleton.mp h
      have hv : v = v' := (Prod.mk.injEq _ _ _ _ ▸ this).2
      subst hv
      show byteLength (stringify v) ≤ byteLength (quoteStr k' ++ ':' :: stringify v)
      rw [byteLength_append, byteLength_cons]
      omega
    | cons p2 rest2 =>
      show byteLength (stringify v) ≤
        byteLength (quoteStr k' ++ ':' :: stringify v' ++ ',' :: stringifyMembers (p2 :: rest2))
      rw [byteLength_append, byteLength_cons, byteLength_append, byteLength_cons]
      rcases List.mem_cons.mp h with heq | hmem
      · have hv : v = v' := (Prod.mk.injEq _ _ _ _ ▸ heq).2
        subst hv
        omega
      · have := ih hmem
        omega

theorem mem_elems_byteLength {xs : List JVal} {x : JVal} (h : x ∈ xs) :
    byteLength (stringify x) ≤ byteLength (stringifyElems xs) := by
  induction xs with
  | nil => cases h
  | cons y rest ih =>
    cases rest with
    | nil =>
      have hx : x = y := List.mem_singleton.mp h
      subst hx
      exact le_refl _
    | cons y2 rest2 =>
      show byteLength (stringify x) ≤
        byteLength (stringify y ++ ',' :: stringifyElems (y2 :: rest2))
      rw [byteLength_append, byteLength_cons]
      rcases List.mem_cons.mp h with heq | hmem
      · subst heq; omega
      · have := ih hmem
        omega

theorem obj_byteLength {kvs : List (String × JVal)} {k : String} {v : JVal}
    (h : (k, v) ∈ kvs) :
    byteLength (stringify v) ≤ byteLength (stringify (.obj kvs)) := by
  show byteLength (stringify v) ≤ byteLength ('\x7b' :: stringifyMembers kvs ++ ['\x7d'])
  rw [byteLength_append, byteLength_cons]
  have := mem_members_byteLength h
  omega

theorem arr_byteLength {xs : List JVal} {x : JVal} (h : x ∈ xs) :
    byteLength (stringify x) ≤ byteLength (stringify (.arr xs)) := by
  show byteLength (stringify x) ≤ byteLength ('[' :: stringifyElems xs ++ [']'])
  rw [byteLength_append, byteLength_cons]
  have := mem_elems_byteLength h
  omega

/-- The persisted JSON is always one of the three summarisation stages. -/
theorem ensureResultSize_cases (maxBytes : Nat) (payload : JVal) :
    (ensureResultSize maxBytes payload).2 = stringify payload ∨
    (ensureResultSize maxBytes payload).2 = stringify (trimmedOf payload) ∨
    (ensureResultSize maxBytes payload).2 = stringify (minimalOf (trimmedOf payload)) := by
  unfold ensureResultSize
  split_ifs with h1 h2
  · exact Or.inl rfl
  · exact Or.inr (Or.inl rfl)
  · exact Or.inr (Or.inr rfl)

/-! ## Claim C3: the persisted-result byte budget -/

/-- An expected value longer than the default RESULT_JSON_MAX_BYTES, as a
pathological but accepted configuration value would produce. -/
def bigExpected : String := ⟨List.replicate 20001 'a'⟩

def c3Snapshot : JVal := .obj [("cname", .arr [])]

def c3Missing : JVal :=
  .arr [.obj [("key", .str "SPF"), ("expected", .str bigExpected),
              ("ok", .bool false), ("found", .arr [])]]

def c3Payload : JVal :=
  .obj [("dns_snapshot", c3Snapshot), ("missing", c3Missing), ("ok", .bool false),
        ("checked_at", .str "2026-01-01T00:00:00.000Z"),
        ("next_check_at", .str "2026-01-01T00:05:00.000Z")]

theorem bigExpected_length : bigExpected.data.length = 20001 := by
  show (List.replicate 20001 'a').length = 20001
  rw [List.length_replicate]

theorem c3_contains_bound (fields ifields : List (String × JVal))
    (hmem : ("missing", JVal.arr [JVal.obj ifields]) ∈ fields)
    (hexp : ("expected", JVal.str bigExpected) ∈ ifields) :
    20001 ≤ byteLength (stringify (.obj fields)) := by
  have h1 : 20001 ≤ byteLength (stringify (.str bigExpected)) := by
    have := str_byteLength_lower bigExpected
    rw [bigExpected_length] at this
    exact this
  have h2 := obj_byteLength hexp
  have h3 := arr_byteLength (List.mem_singleton.mpr (rfl : JVal.obj ifields = JVal.obj ifields))
  have h4 := obj_byteLength hmem
  omega

/-- Counterexample to claim C3: the note-only stage is returned without a
size check, so a check result whose retained expected value alone exceeds
RESULT_JSON_MAX_BYTES is persisted oversize (evaluated at the default budget
of 20000 bytes). -/
theorem c3_result_size_counterexample :
    20000 < byteLength (buildResultPayload 20000 c3Snapshot c3Missing (.bool false)
      "2026-01-01T00:00:00.000Z" "2026-01-01T00:05:00.000Z").2 := by
  show 20000 < byteLength (ensureResultSize 20000 c3Payload).2
  rcases ensureResultSize_cases 20000 c3Payload with h | h | h <;> rw [h]
  · have := c3_contains_bound
      [("dns_snapshot", c3Snapshot), ("missing", c3Missing), ("ok", .bool false),
        ("checked_at", .str "2026-01-01T00:00:00.000Z"),
        ("next_check_at", .str "2026-01-01T00:05:00.000Z")]
      [("key", .str "SPF"), ("expected", .str bigExpected),
        ("ok", .bool false), ("found", .arr [])]
      (List.mem_cons_of_mem _ (List.mem_cons_self _ _))
      (List.mem_cons_of_mem _ (List.mem_cons_self _ _))
    exact lt_of_lt_of_le (show (20000 : Nat) < 20001 by omega) this
  · have heq : trimmedOf c3Payload =
        .obj [("dns_snapshot", .obj [("truncated", .bool true),
                ("counts", .obj [("cname", .num 0)])]),
              ("missing", .arr [.obj [("key", .str "SPF"),
                ("expected", .str bigExpected), ("ok", .bool false),
                ("found", .arr []), ("found_truncated", .bool false)]]),
              ("ok", .bool false),
              ("checked_at", .str "2026-01-01T00:00:00.000Z"),
              ("next_check_at", .str "2026-01-01T00:05:00.000Z"),
              ("truncated", .bool true)] := rfl
    rw [heq]
    have := c3_contains_bound
      [("dns_snapshot", .obj [("truncated", .bool true),
                ("counts", .obj [("cname", .num 0)])]),
              ("missing", .arr [.obj [("key", .str "SPF"),
                ("expected", .str bigExpected), ("ok", .bool false),
                ("found", .arr []), ("found_truncated", .bool false)]]),
              ("ok", .bool false),
              ("checked_at", .str "2026-01-01T00:00:00.000Z"),
              ("next_check_at", .str "2026-01-01T00:05:00.000Z"),
              ("truncated", .bool true)]
      [("key", .str "SPF"), ("expected", .str bigExpected),
        ("ok", .bool false), ("found", .arr []), ("found_truncated", .bool false)]
      (List.mem_cons_of_mem _ (List.mem_cons_self _ _))
      (List.mem_cons_of_mem _ (List.mem_cons_self _ _))
    omega
  · have heq : minimalOf (trimmedOf c3Payload) =
        .obj [("dns_snapshot", .obj [("truncated", .bool true),
                ("note", .str "snapshot omitted")]),
              ("missing", .arr [.obj [("key", .str "SPF"),
                ("expected", .str bigExpected), ("ok", .bool false),
                ("found", .arr []), ("found_truncated", .bool true)]]),
              ("ok", .bool false),
              ("checked_at", .str "2026-01-01T00:00:00.000Z"),
              ("next_check_at", .str "2026-01-01T00:05:00.000Z"),
              ("truncated", .bool true)] := rfl
    rw [heq]
    have := c3_contains_bound
      [("dns_snapshot", .obj [("truncated", .bool true),
                ("note", .str "snapshot omitted")]),
              ("missing", .arr [.obj [("key", .str "SPF"),
                ("expected", .str bigExpected), ("ok", .bool false),
                ("found", .arr []), ("found_truncated", .bool true)]]),
              ("ok", .bool false),
              ("checked_at", .str "2026-01-01T00:00:00.000Z"),
              ("next_check_at", .str "2026-01-01T00:05:00.000Z"),
              ("truncated", .bool true)]
      [("key", .str "SPF"), ("expected", .str bigExpected),
        ("ok", .bool false), ("found", .arr []), ("found_truncated", .bool true)]
      (List.mem_cons_of_mem _ (List.mem_cons_self _ _))
      (List.mem_cons_of_mem _ (List.mem_cons_self _ _))
    omega

/-- Claim C3 as amended: the persisted JSON respects RESULT_JSON_MAX_BYTES
whenever the note-only minimal serialisation itself fits within the budget
(the first two stages are size-checked; the third is returned as-is). -/
theorem c3_result_size_amended (maxBytes : Nat) (payload : JVal)
    (h : byteLength (stringify (minimalOf (trimmedOf payload))) ≤ maxBytes) :
    byteLength (ensureResultSize maxBytes payload).2 ≤ maxBytes := by
  unfold ensureResultSize
  split_ifs with h1 h2
  · exact h1
  · exact h2
  · exact h

/-- Witness for the amended C3 at a concrete small payload. -/
theorem c3_result_size_amended_witness :
    byteLength (ensureResultSize 20000 (JVal.obj [])).2 ≤ 20000 :=
  c3_result_size_amended 20000 (.obj []) (by decide)

/-! ### Trim lemmas -/

theorem dropWhile_headOk (l : List Char) : HeadOk (l.dropWhile isJsWs) := by
  induction l with
  | nil => intro c hc; cases hc
  | cons c cs ih =>
    cases hws : isJsWs c with
    | true =>
      intro b hb
      rw [List.dropWhile_cons, hws] at hb
      exact ih b (by simpa using hb)
    | false =>
      intro b hb
      rw [List.dropWhile_cons, hws] at hb
      simp only [Bool.false_eq_true, if_false, List.head?_cons] at hb
      exact Option.some_inj.mp hb ▸ hws

theorem dropWhile_eq_self_of_headOk {l : List Char} (h : HeadOk l) :
    l.dropWhile isJsWs = l := by
  cases l with
  | nil => rfl
  | cons c cs =>
    have hc : isJsWs c = false := h c rfl
    rw [List.dropWhile_cons, hc]
    simp

theorem dropWhile_getLast? (l : List Char) :
    l.dropWhile isJsWs = [] ∨ (l.dropWhile isJsWs).getLast? = l.getLast? := by
  induction l with
  | nil => exact Or.inl rfl
  | cons c cs ih =>
    cases hws : isJsWs c with
    | true =>
      rw [List.dropWhile_cons, hws]
      simp only [if_true]
      rcases ih with h | h
      · exact Or.inl h
      · cases cs with
        | nil =>
          exact Or.inl (by simp [List.dropWhile])
        | cons d ds =>
          right
          rw [h, List.getLast?_cons_cons]
    | false =>
      rw [List.dropWhile_cons, hws]
      simp

theorem trim_headOk (l : List Char) : HeadOk (trimChars l) := by
  intro c hc
  unfold trimChars at hc
  rw [List.head?_reverse] at hc
  rcases dropWhile_getLast? (l.dropWhile isJsWs).reverse with h | h
  · rw [h] at hc; cases hc
  · rw [h, List.getLast?_reverse] at hc
    exact dropWhile_headOk l c hc

theorem trim_lastOk (l : List Char) : LastOk (trimChars l) := by
  intro c hc
  unfold trimChars at hc
  rw [List.getLast?_reverse] at hc
  exact dropWhile_headOk _ c hc

theorem trim_subset (l : List Char) : ∀ c ∈ trimChars l, c ∈ l := by
  intro c hc
  unfold trimChars at hc
  rw [List.mem_reverse] at hc
  have h1 := (List.dropWhile_sublist (l := (l.dropWhile isJsWs).reverse) isJsWs).subset hc
  rw [List.mem_reverse] at h1
  exact (List.dropWhile_sublist isJsWs).subset h1

theorem trim_noCtrl {l : List Char} (h : NoCtrl l) : NoCtrl (trimChars l) :=
  fun c hc => h c (trim_subset l c hc)

theorem trim_noWs2 {l : List Char} (h : NoWs2 l) : NoWs2 (trimChars l) := by
  unfold trimChars
  rw [NoWs2, List.chain'_reverse]
  have h1 : NoWs2 (l.dropWhile isJsWs) :=
    h.suffix (List.dropWhile_suffix isJsWs)
  have h2 : List.Chain' (flip fun a b => isJsWs a = true → isJsWs b = false)
      (l.dropWhile isJsWs).reverse := by
    rw [List.chain'_reverse]
    exact h1.imp (fun a b hab => hab)
  have h3 := h2.suffix (List.dropWhile_suffix isJsWs)
  exact h3.imp (fun a b hab => hab)

theorem trim_eq_self {l : List Char} (h1 : HeadOk l) (h2 : LastOk l) :
    trimChars l = l := by
  unfold trimChars
  rw [dropWhile_eq_self_of_headOk h1]
  have hrev : HeadOk l.reverse := by
    intro c hc
    rw [List.head?_reverse] at hc
    exact h2 c hc
  rw [dropWhile_eq_self_of_headOk hrev, List.reverse_reverse]

/-! ### Fixed points of the sanitizeForLogAndEmail pipeline -/

theorem sanitizeCore_props (l : List Char) :
    NoCtrl (sanitizeCore l) ∧ NoWs2 (sanitizeCore l) ∧ HeadOk (sanitizeCore l) ∧
    LastOk (sanitizeCore l) := by
  unfold sanitizeCore collapseWsRuns
  have hNoCtrl : NoCtrl (stripControlChars (replaceRuns isCrlfTab l)) :=
    stripControl_noCtrl _
  exact ⟨trim_noCtrl ((collapse_noCtrl _ hNoCtrl).1),
         trim_noWs2 ((collapse_props _).1.1),
         trim_headOk _, trim_lastOk _⟩

theorem sanitizeCore_eq_self {l : List Char} (h1 : NoCtrl l) (h2 : NoWs2 l)
    (h3 : HeadOk l) (h4 : LastOk l) : sanitizeCore l = l := by
  unfold sanitizeCore collapseWsRuns
  have hr1 : replaceRuns isCrlfTab l = l := replaceRuns_eq_self fun c hc => by
    cases h : isCrlfTab c with
    | false => rfl
    | true => exact absurd (isCrlfTab_isCtrl h) (by rw [h1 c hc]; simp)
  rw [hr1, stripControl_eq_self h1, (collapse_pair l h2).1, trim_eq_self h3 h4]

theorem out_noCtrl {v : List Char} (h : NoCtrl v) (n : Nat) :
    NoCtrl (v.take n ++ ['.', '.', '.']) := by
  intro c hc
  rcases List.mem_append.mp hc with hc | hc
  · exact h c (List.take_subset n v hc)
  · simp only [List.mem_cons, List.not_mem_nil, or_false] at hc
    rcases hc with rfl | rfl | rfl <;> decide

theorem out_noWs2 {v : List Char} (h : NoWs2 v) (n : Nat) :
    NoWs2 (v.take n ++ ['.', '.', '.']) := by
  rw [NoWs2, List.chain'_append]
  have hdot : isJsWs '.' = false := by decide
  refine ⟨h.take n,
    chain'_cons_of_not_ws hdot (chain'_cons_of_not_ws hdot (List.chain'_singleton '.')), ?_⟩
  intro x _ y hy _
  simp only [List.head?_cons, Option.mem_def, Option.some.injEq] at hy
  rw [← hy]
  decide

theorem out_headOk {v : List Char} (h : HeadOk v) (n : Nat) :
    HeadOk (v.take n ++ ['.', '.', '.']) := by
  intro c hc
  cases htk : v.take n with
  | nil =>
    rw [htk] at hc
    simp only [List.nil_append, List.head?_cons, Option.some.injEq] at hc
    rw [← hc]
    decide
  | cons t ts =>
    rw [htk] at hc
    simp only [List.cons_append, List.head?_cons, Option.some.injEq] at hc
    have hv : v.head? = some t := by
      cases v with
      | nil => rw [List.take_nil] at htk; cases htk
      | cons a as =>
        cases n with
        | zero => rw [List.take_zero] at htk; cases htk
        | succ n =>
          rw [List.take_succ_cons] at htk
          rw [List.head?_cons]
          exact congrArg some (List.cons.injEq _ _ _ _ ▸ htk).1
    rw [← hc]
    exact h t hv

theorem out_lastOk (v : List Char) (n : Nat) :
    LastOk (v.take n ++ ['.', '.', '.']) := by
  intro c hc
  rw [← List.head?_reverse] at hc
  have hrev : ((v.take n ++ ['.', '.', '.']).reverse).head? = some '.' := by
    rw [List.reverse_append]
    rfl
  rw [hrev] at hc
  rw [← Option.some_inj.mp hc]
  decide

theorem sanitizeForLogAndEmail_idem (l : List Char) (maxLen : Nat) :
    sanitizeForLogAndEmail (sanitizeForLogAndEmail l maxLen) maxLen =
      sanitizeForLogAndEmail l maxLen := by
  obtain ⟨p1, p2, p3, p4⟩ := sanitizeCore_props l
  by_cases hlen : maxLen < (sanitizeCore l).length
  · have hfirst : sanitizeForLogAndEmail l maxLen =
        (sanitizeCore l).take maxLen ++ ['.', '.', '.'] := by
      unfold sanitizeForLogAndEmail
      rw [if_pos hlen]
    rw [hfirst]
    have hcore2 : sanitizeCore ((sanitizeCore l).take maxLen ++ ['.', '.', '.']) =
        (sanitizeCore l).take maxLen ++ ['.', '.', '.'] :=
      sanitizeCore_eq_self (out_noCtrl p1 maxLen) (out_noWs2 p2 maxLen)
        (out_headOk p3 maxLen) (out_lastOk _ maxLen)
    have htklen : ((sanitizeCore l).take maxLen).length = maxLen := by
      rw [List.length_take]
      omega
    have hlenOut : ((sanitizeCore l).take maxLen ++ ['.', '.', '.']).length =
        maxLen + 3 := by
      rw [List.length_append, htklen]
      rfl
    unfold sanitizeForLogAndEmail
    rw [hcore2, if_pos (by rw [hlenOut]; omega), List.take_left' htklen]
  · have hfirst : sanitizeForLogAndEmail l maxLen = sanitizeCore l := by
      unfold sanitizeForLogAndEmail
      rw [if_neg hlen]
    rw [hfirst]
    unfold sanitizeForLogAndEmail
    rw [sanitizeCore_eq_self p1 p2 p3 p4, if_neg hlen]

/-! ### Idempotence of the remaining sanitizers -/

theorem stripControl_eq_self_of_noCtrl {u : List Char} (h : NoCtrl u) :
    stripControlChars u = u :=
  stripControl_eq_self h

theorem headerCore_subset (l : List Char) : ∀ c ∈ headerCore l,
    (!(c == '\r' || c == '\n')) = true ∧ isCtrl c = false := by
  intro c hc
  unfold headerCore at hc
  have h1 := (List.filter_sublist _).subset hc
  exact ⟨(List.mem_filter.mp h1).2, stripControl_noCtrl _ c hc⟩

theorem headerCore_eq_self_of_subset {u l : List Char}
    (hsub : ∀ c ∈ u, c ∈ headerCore l) : headerCore u = u := by
  unfold headerCore
  rw [List.filter_eq_self.mpr fun c hc => (headerCore_subset l c (hsub c hc)).1]
  exact stripControl_eq_self fun c hc => (headerCore_subset l c (hsub c hc)).2

theorem sanitizeHeaderValue_idem (l : List Char) (maxLen : Nat) :
    sanitizeHeaderValue (sanitizeHeaderValue l maxLen) maxLen =
      sanitizeHeaderValue l maxLen := by
  by_cases hlen : maxLen < (headerCore l).length
  · have hfirst : sanitizeHeaderValue l maxLen = (headerCore l).take maxLen := by
      unfold sanitizeHeaderValue
      rw [if_pos hlen]
    rw [hfirst]
    have hcore : headerCore ((headerCore l).take maxLen) = (headerCore l).take maxLen :=
      headerCore_eq_self_of_subset fun c hc => List.take_subset _ _ hc
    have htklen : ((headerCore l).take maxLen).length = maxLen := by
      rw [List.length_take]
      omega
    unfold sanitizeHeaderValue
    rw [hcore, htklen, if_neg (by omega)]
  · have hfirst : sanitizeHeaderValue l maxLen = headerCore l := by
      unfold sanitizeHeaderValue
      rw [if_neg hlen]
    rw [hfirst]
    unfold sanitizeHeaderValue
    rw [headerCore_eq_self_of_subset fun c hc => hc, if_neg hlen]

theorem sanitizeDnsText_value_idem (l : List Char) (maxLen : Nat) :
    (sanitizeDnsText (sanitizeDnsText l maxLen).value maxLen).value =
      (sanitizeDnsText l maxLen).value := by
  by_cases hc : maxLen ≠ 0 ∧ maxLen < (stripControlChars l).length
  · have hfirst : (sanitizeDnsText l maxLen).value = (stripControlChars l).take maxLen := by
      unfold sanitizeDnsText
      rw [if_pos hc]
    rw [hfirst]
    have hstr : stripControlChars ((stripControlChars l).take maxLen) =
        (stripControlChars l).take maxLen :=
      stripControl_eq_self fun c hcm =>
        stripControl_noCtrl l c (List.take_subset _ _ hcm)
    have htklen : ((stripControlChars l).take maxLen).length = maxLen := by
      rw [List.length_take]
      omega
    unfold sanitizeDnsText
    rw [hstr, htklen, if_neg (by omega)]
  · have hfirst : (sanitizeDnsText l maxLen).value = stripControlChars l := by
      unfold sanitizeDnsText
      rw [if_neg hc]
    rw [hfirst]
    unfold sanitizeDnsText
    rw [stripControl_eq_self (stripControl_noCtrl l), if_neg hc]

theorem hostCore_subset (l : List Char) : ∀ c ∈ hostCore l,
    isCtrl c = false ∧ (!isJsWs c) = true := by
  intro c hc
  unfold hostCore at hc
  have h1 := (List.filter_sublist _).subset hc
  exact ⟨stripControl_noCtrl _ c h1, (List.mem_filter.mp hc).2⟩

theorem hostCore_eq_self_of_subset {u l : List Char}
    (hsub : ∀ c ∈ u, c ∈ hostCore l) : hostCore u = u := by
  unfold hostCore
  rw [stripControl_eq_self fun c hc => (hostCore_subset l c (hsub c hc)).1]
  exact List.filter_eq_self.mpr fun c hc => (hostCore_subset l c (hsub c hc)).2

theorem sanitizeDnsHost_value_idem (l : List Char) (maxLen : Nat) :
    (sanitizeDnsHost (sanitizeDnsHost l maxLen).value maxLen).value =
      (sanitizeDnsHost l maxLen).value := by
  by_cases hc : maxLen ≠ 0 ∧ maxLen < (hostCore l).length
  · have hfirst : (sanitizeDnsHost l maxLen).value = (hostCore l).take maxLen := by
      unfold sanitizeDnsHost
      rw [if_pos hc]
    rw [hfirst]
    have hcore : hostCore ((hostCore l).take maxLen) = (hostCore l).take maxLen :=
      hostCore_eq_self_of_subset fun c hcm => List.take_subset _ _ hcm
    have htklen : ((hostCore l).take maxLen).length = maxLen := by
      rw [List.length_take]
      omega
    unfold sanitizeDnsHost
    rw [hcore, htklen, if_neg (by omega)]
  · have hfirst : (sanitizeDnsHost l maxLen).value = hostCore l := by
      unfold sanitizeDnsHost
      rw [if_neg hc]
    rw [hfirst]
    unfold sanitizeDnsHost
    rw [hostCore_eq_self_of_subset fun c hcm => hcm, if_neg hc]

/-! ## Claim C9: sanitizer idempotence -/

/-- Claim C9: each sanitizer is idempotent, including on inputs long enough to
trigger truncation (with the appended ellipsis for sanitizeForLogAndEmail):
applying sanitizeForLogAndEmail or sanitizeHeaderValue to its own output, or
sanitizeDnsText or sanitizeDnsHost to the value field of its own result,
changes nothing. -/
theorem c9_sanitizers_idempotent :
    (∀ (l : List Char) (maxLen : Nat),
       sanitizeForLogAndEmail (sanitizeForLogAndEmail l maxLen) maxLen =
         sanitizeForLogAndEmail l maxLen) ∧
    (∀ (l : List Char) (maxLen : Nat),
       sanitizeHeaderValue (sanitizeHeaderValue l maxLen) maxLen =
         sanitizeHeaderValue l maxLen) ∧
    (∀ (l : List Char) (maxLen : Nat),
       (sanitizeDnsText (sanitizeDnsText l maxLen).value maxLen).value =
         (sanitizeDnsText l maxLen).value) ∧
    (∀ (l : List Char) (maxLen : Nat),
       (sanitizeDnsHost (sanitizeDnsHost l maxLen).value maxLen).value =
         (sanitizeDnsHost l maxLen).value) :=
  ⟨sanitizeForLogAndEmail_idem, sanitizeHeaderValue_idem,
   sanitizeDnsText_value_idem, sanitizeDnsHost_value_idem⟩

/-! ## Claim C1: terminal statuses are immutable -/

/-- Claim C1: for every request row, once its status is ACTIVE, EXPIRED or
FAILED, no sequence of the service's UPDATE operations (background tick,
immediate intake check, or error-path fail_reason update) changes its status;
every status-changing UPDATE is conditional on status = PENDING. -/
theorem c1_terminal_status_immutable (row : ReqRow) (ops : List DbOp)
    (h : row.status = .ACTIVE ∨ row.status = .EXPIRED ∨ row.status = .FAILED) :
    (ops.foldl applyDbOp row).status = row.status := by
  induction ops generalizing row with
  | nil => rfl
  | cons op rest ih =>
    have hne : row.status ≠ .PENDING := by
      rcases h with h | h | h <;> simp [h]
    have hst : (applyDbOp row op).status = row.status := by
      cases op <;> simp [applyDbOp, hne]
    have hterm : (applyDbOp row op).status = .ACTIVE ∨
        (applyDbOp row op).status = .EXPIRED ∨ (applyDbOp row op).status = .FAILED := by
      rw [hst]; exact h
    simpa [hst] using ih (applyDbOp row op) hterm

/-- Witness for C1 at a concrete ACTIVE row and operation sequence. -/
theorem c1_terminal_status_immutable_witness :
    (([DbOp.setFailReason "x", DbOp.immediatePromote 5,
       DbOp.updateStatusConditional .EXPIRED (some "r") 7,
       DbOp.updateCheckResultUnconditional 1 2 "j",
       DbOp.updateCheckResultConditional 3 4 "k"].foldl applyDbOp
      ⟨.ACTIVE, some 3, none, none, none, none⟩).status = Status.ACTIVE) :=
  c1_terminal_status_immutable ⟨.ACTIVE, some 3, none, none, none, none⟩ _ (Or.inl rfl)

/-! ## Claim C2: POST /request/ui -/

/-- A benign intake environment: valid body, idle scheduler, no cooldown, no
duplicate, immediate check completes with a failing verdict. -/
def c2Env : IntakeEnv :=
  { bodyTarget := .ok "example.com", activeJobs := 0, maxJobs := 10,
    cooldownBlocked := false, insertDuplicate := false, immediateCheck := some false }

/-- Claim C2 is refuted by the code: POST /request/ui does not answer 410; the
route runs the full intake flow, inserting a row, running an immediate DNS
check, starting a background job, and answering 202 (this theorem evaluates
the route at a concrete benign request, exhibiting the divergence from the
documented endpoint_removed behaviour). -/
theorem c2_post_request_ui_not_removed :
    (postRequestUi c2Env).httpStatus = 202 ∧
    (postRequestUi c2Env).httpStatus ≠ 410 ∧
    (postRequestUi c2Env).insertedRow = true ∧
    (postRequestUi c2Env).ranImmediateCheck = true ∧
    (postRequestUi c2Env).startedJob = true := by
  refine ⟨rfl, ?_, rfl, rfl, rfl⟩
  decide

/-! ## Claim C7: the jobs map never exceeds MAX_ACTIVE_JOBS -/

theorem startJob_jobs_length (s : SchedState) (row : SchedRow) :
    (startJob s row).jobs.length ≤ s.jobs.length + 1 := by
  unfold startJob
  split
  · omega
  · simp

theorem enqueue_jobs (s : SchedState) (row : SchedRow) :
    (enqueue s row).jobs = s.jobs := by
  unfold enqueue
  split <;> rfl

theorem drainQueueAux_cap (maxJobs : Nat) (fuel : Nat) (s : SchedState)
    (h : s.jobs.length ≤ maxJobs) :
    (drainQueueAux maxJobs fuel s).jobs.length ≤ maxJobs := by
  induction fuel generalizing s with
  | zero => exact h
  | succ fuel ih =>
    rw [drainQueueAux]
    split
    · next hcan =>
      have hlt : s.jobs.length < maxJobs := by simpa [canStartJob] using hcan
      cases hq : s.queue with
      | nil => exact h
      | cons row rest =>
        apply ih
        exact le_trans (startJob_jobs_length _ row)
          (show s.jobs.length + 1 ≤ maxJobs by omega)
    · exact h

theorem startForRequest_cap (maxJobs : Nat) (s : SchedState) (row : SchedRow)
    (h : s.jobs.length ≤ maxJobs) :
    (startForRequest maxJobs s row).jobs.length ≤ maxJobs := by
  unfold startForRequest
  split
  · exact h
  · split
    · rw [enqueue_jobs]
      exact h
    · next hcan =>
      have hlt : s.jobs.length < maxJobs := by
        have : canStartJob maxJobs s = true := by
          cases hc : canStartJob maxJobs s with
          | true => rfl
          | false => exact absurd (by rw [hc]; rfl) hcan
        simpa [canStartJob] using this
      exact le_trans (startJob_jobs_length s row)
        (show s.jobs.length + 1 ≤ maxJobs by omega)

theorem schedStep_cap (maxJobs : Nat) (s : SchedState) (op : SchedOp)
    (h : s.jobs.length ≤ maxJobs) :
    (schedStep maxJobs s op).jobs.length ≤ maxJobs := by
  cases op with
  | startForRequest row => exact startForRequest_cap maxJobs s row h
  | stopJob key =>
    show (stopJob maxJobs s key).jobs.length ≤ maxJobs
    unfold stopJob
    split
    · apply drainQueueAux_cap
      calc (s.jobs.filter (fun k => !(k == key))).length ≤ s.jobs.length :=
            List.length_filter_le _ _
        _ ≤ maxJobs := h
    · exact h
  | resumePending rows =>
    show (resumePending maxJobs s rows).jobs.length ≤ maxJobs
    unfold resumePending drainQueue
    apply drainQueueAux_cap
    induction rows generalizing s with
    | nil => exact h
    | cons row rest ih =>
      simp only [List.foldl_cons]
      exact ih _ (startForRequest_cap maxJobs s row h)

/-- Claim C7: under every sequence of scheduler operations, the number of
active jobs never exceeds MAX_ACTIVE_JOBS, and startForRequest only ever
starts a job when below the cap (otherwise the jobs map is untouched and the
request is queued). -/
theorem c7_jobs_cap_invariant :
    (∀ (maxJobs : Nat) (ops : List SchedOp),
       (schedRun maxJobs ops).jobs.length ≤ maxJobs) ∧
    (∀ (maxJobs : Nat) (s : SchedState) (row : SchedRow),
       (startForRequest maxJobs s row).jobs = s.jobs ∨
       (s.jobs.length < maxJobs ∧
        (startForRequest maxJobs s row).jobs =
          s.jobs ++ [getKey row.type row.target])) := by
  constructor
  · intro maxJobs ops
    unfold schedRun
    have : ∀ (l : List SchedOp) (s : SchedState), s.jobs.length ≤ maxJobs →
        (l.foldl (schedStep maxJobs) s).jobs.length ≤ maxJobs := by
      intro l
      induction l with
      | nil => intro s h; exact h
      | cons op rest ih =>
        intro s h
        simp only [List.foldl_cons]
        exact ih _ (schedStep_cap maxJobs s op h)
    exact this ops schedInit (by simp [schedInit])
  · intro maxJobs s row
    unfold startForRequest
    split
    · exact Or.inl rfl
    · next hmem =>
      split
      · exact Or.inl (enqueue_jobs s row)
      · next hcan =>
        right
        have hcan' : canStartJob maxJobs s = true := by
          cases hc : canStartJob maxJobs s with
          | true => rfl
          | false => exact absurd (by rw [hc]; rfl) hcan
        have hlt : s.jobs.length < maxJobs := by simpa [canStartJob] using hcan'
        refine ⟨hlt, ?_⟩
        unfold startJob
        rw [if_neg hmem]

end MailDns
